import Mathlib

/-!
Verification development for the LocalTopSH sandbox policy engine.

The TypeScript source (path containment, workspace isolation, command
gating, output sanitisation, file tools) is embedded shallowly below.
Strings are modelled as Lean `String`s; the character-level scanners
mirror the JavaScript regular expressions used by the source, and the
filesystem-facing tools are modelled by explicit state passing over a
small filesystem model.  JS string routines that only ever receive
ASCII-relevant data (`toLowerCase`, `\s`, `\w`) are modelled on their
ASCII behaviour.
-/

namespace LocalTopSH

/-! ## Character and list utilities -/

/-- The backtick character (U+0060), written via its code point. -/
def backtick : Char := Char.ofNat 96

/-- JS `\s` (whitespace) restricted to its ASCII members, which are the
only whitespace characters the embedded code paths can meet. -/
def jsSpace (c : Char) : Bool :=
  c = ' ' ∨ c = '\t' ∨ c = '\n' ∨ c = '\r' ∨ c = Char.ofNat 11 ∨ c = Char.ofNat 12

/-- JS `\w`: ASCII letters, digits and underscore. -/
def isWordChar (c : Char) : Bool :=
  c.isAlpha ∨ c.isDigit ∨ c = '_'

/-- Case-insensitive character comparison (ASCII case folding, as JS
`i`-flagged regexes perform on ASCII input). -/
def ciEq (a b : Char) : Bool := a.toLower = b.toLower

/-- Case-insensitive list prefix test. -/
def ciIsPre : List Char → List Char → Bool
  | [], _ => true
  | _ :: _, [] => false
  | p :: ps, c :: cs => ciEq p c && ciIsPre ps cs

/-- Case-insensitive substring test. -/
def ciHasSub (needle : List Char) : List Char → Bool
  | [] => ciIsPre needle []
  | c :: cs => ciIsPre needle (c :: cs) || ciHasSub needle cs

/-- Case-sensitive substring test on character lists. -/
def hasSub (needle : List Char) : List Char → Bool
  | [] => needle.isPrefixOf []
  | c :: cs => needle.isPrefixOf (c :: cs) || hasSub needle cs

/-- String prefix test (model of JS `String.startsWith`). -/
def strStartsWith (s p : String) : Bool := p.toList.isPrefixOf s.toList

/-- String substring test (model of JS `String.includes`). -/
def strContains (s sub : String) : Bool := hasSub sub.toList s.toList

/-- JS `String.trim` on ASCII whitespace. -/
def jsTrim (cs : List Char) : List Char :=
  ((cs.dropWhile jsSpace).reverse.dropWhile jsSpace).reverse

/-! ## Node `path.posix` model

`resolve`, `relative`, `join` and `isAbsolute` from Node's `path`
module, as used by the source.  All call sites in the embedded code pass
absolute base paths, so a relative argument to the one-argument
`resolve` is modelled as being resolved against `/` (the process cwd is
not modelled; no theorem below depends on it). -/

/-- Split a character list on `/` (like `p.split('/')`). -/
def splitSegs : List Char → List (List Char)
  | [] => [[]]
  | c :: cs =>
    match splitSegs cs with
    | [] => [[]]
    | s :: ss => if c = '/' then [] :: s :: ss else (c :: s) :: ss

/-- Normalise an absolute path's segment list: drop empty and `.`
segments, let `..` remove the previous segment (and disappear at the
root), as POSIX path normalisation does. -/
def normSegs (segs : List (List Char)) : List (List Char) :=
  segs.foldl
    (fun acc seg =>
      if seg = [] ∨ seg = ['.'] then acc
      else if seg = ['.', '.'] then acc.dropLast
      else acc ++ [seg]) []

/-- Segment list of a path after normalisation. -/
def pathSegs (p : String) : List (List Char) := normSegs (splitSegs p.toList)

/-- Rebuild an absolute path from its segments. -/
def joinAbs (segs : List (List Char)) : String :=
  ⟨'/' :: List.intercalate ['/'] segs⟩

/-- Model of Node `path.resolve(p)` for an absolute `p`: pure
normalisation.  (A relative `p` is resolved as if the cwd were `/`.) -/
def nodeResolve (p : String) : String := joinAbs (pathSegs p)

/-- Model of Node `path.resolve(base, p)` with `base` absolute. -/
def nodeResolve2 (base p : String) : String :=
  if strStartsWith p "/" then nodeResolve p
  else nodeResolve (base ++ "/" ++ p)

/-- Length of the common segment prefix of two paths. -/
def commonPrefixLen : List (List Char) → List (List Char) → Nat
  | a :: as, b :: bs => if a = b then commonPrefixLen as bs + 1 else 0
  | _, _ => 0

/-- Model of Node `path.relative(f, t)` for absolute `f`, `t`: walk up
with `..` from `f`'s extra segments, then down into `t`'s. -/
def nodeRelative (f t : String) : String :=
  let fs := pathSegs f
  let ts := pathSegs t
  let c := commonPrefixLen fs ts
  ⟨List.intercalate ['/'] (List.replicate (fs.length - c) ['.', '.'] ++ ts.drop c)⟩

/-! ## Path containment (`isPathInsideWorkspace`, both copies) -/

/-- Source `isPathInsideWorkspace(targetPath, workspaceRoot)`:
`rel = relative(resolve(root), resolve(target))`, accepted when `rel`
is empty, or starts neither with `..` nor with `/`. -/
def isPathInsideWorkspace (targetPath workspaceRoot : String) : Bool :=
  let rel := nodeRelative (nodeResolve workspaceRoot) (nodeResolve targetPath)
  rel == "" || (!(strStartsWith rel "..") && !(strStartsWith rel "/"))

/-- The containment predicate exactly as the spec words it: the
normalised form of `p` equals the normalised form of `r` or is a proper
descendant of it (its segment list extends `r`'s). -/
def isInsideSpec (p r : String) : Bool :=
  (pathSegs r).isPrefixOf (pathSegs p)

/-- Containment as the code actually decides it: `r`'s segments are a
prefix of `p`'s, and additionally the first segment of `p` below `r`
does not itself begin with two dots (the `startsWith('..')` test also
rejects descendants whose first extra segment merely begins with
`..`, such as `..f`). -/
def isInsideAmended (p r : String) : Bool :=
  let ps := pathSegs p
  let rs := pathSegs r
  rs.isPrefixOf ps &&
    (ps.length == rs.length || !(['.', '.'].isPrefixOf ((ps.drop rs.length).headD [])))

/-! ## Workspace access policy for the file tools -/

/-- Result shape `{ allowed, reason? }` of `ensureWorkspaceAccess`. -/
structure AccessResult where
  allowed : Bool
  reason : Option String
deriving DecidableEq

/-- Source `ensureWorkspaceAccess(pathToCheck, workspaceRoot)`: deny the
bare `/workspace` root, the `/workspace/_shared` subtree, other users'
workspaces, and anything not contained in the caller's root. -/
def ensureWorkspaceAccess (pathToCheck workspaceRoot : String) : AccessResult :=
  let resolvedPath := nodeResolve pathToCheck
  let resolvedWorkspace := nodeResolve workspaceRoot
  if resolvedPath == "/workspace" || resolvedPath == "/workspace/" then
    ⟨false, some "Нельзя обращаться к корню /workspace"⟩
  else if strStartsWith resolvedPath "/workspace/_shared" then
    ⟨false, some "Нельзя обращаться к общим данным workspace"⟩
  else if strStartsWith resolvedPath "/workspace/"
      && !(isPathInsideWorkspace resolvedPath resolvedWorkspace) then
    ⟨false, some "Нельзя обращаться к workspace другого пользователя"⟩
  else if !(isPathInsideWorkspace resolvedPath resolvedWorkspace) then
    ⟨false, some "Нельзя обращаться к файлам вне вашего workspace"⟩
  else ⟨true, none⟩

/-! ## Command-level workspace isolation (`run_command`)

Character-level models of the regexes used by `checkWorkspaceIsolation`
and its helpers `extractCdTargets` / `extractWorkspacePaths`. -/

/-- First match of `\/workspace\/(\d+)` in a string: the digit run
captured after the first occurrence of `/workspace/` followed by at
least one digit. -/
def matchWsUser : List Char → Option (List Char)
  | [] => none
  | c :: rest =>
    if "/workspace/".toList.isPrefixOf (c :: rest) then
      let ds := ((c :: rest).drop 11).takeWhile Char.isDigit
      if ds.isEmpty then matchWsUser rest else some ds
    else matchWsUser rest

/-- A word boundary sits after the match when the next character is
absent or not a word character. -/
def boundaryAfter : List Char → Bool
  | [] => true
  | c :: _ => !(isWordChar c)

/-- One position of `\/(?:var\/)?run\/secrets\b` (case-insensitive). -/
def secretsPathAt (cs : List Char) : Bool :=
  (ciIsPre "/run/secrets".toList cs && boundaryAfter (cs.drop 12)) ||
  (ciIsPre "/var/run/secrets".toList cs && boundaryAfter (cs.drop 16))

/-- Search for the Docker-secrets path anywhere in the command. -/
def testRunSecrets : List Char → Bool
  | [] => false
  | c :: rest => secretsPathAt (c :: rest) || testRunSecrets rest

/-- Characters admissible in a `cd` target capture (`[^;&|()\n]`). -/
def cdTargetChar (c : Char) : Bool :=
  !(c = ';' || c = '&' || c = '|' || c = '(' || c = ')' || c = '\n')

/-- Backtracking arm of the optional group `(?:\s+([^;&|()\n]+))?`: when
the greedy `\s+` leaves the capture nowhere to start, the capture starts
inside the whitespace run itself, at the latest position (at least 1)
holding a non-newline character. -/
def cdBacktrack (w rest : List Char) : String × List Char :=
  match ((List.range w.length).filter
      (fun k => decide (1 ≤ k) && decide (w.getD k ' ' ≠ '\n'))).getLast? with
  | some k =>
    let cap := (rest.drop k).takeWhile cdTargetChar
    (⟨jsTrim cap⟩, rest.drop (k + cap.length))
  | none => ("", rest)

/-- Match of the optional capture group after `cd`; returns the trimmed
capture (`''` when the group is absent, as `(match[1] || '').trim()`
does) and the input remaining after the whole match. -/
def cdGroup (rest : List Char) : String × List Char :=
  let w := rest.takeWhile jsSpace
  if w.isEmpty then ("", rest)
  else
    match rest.drop w.length with
    | a :: more =>
      if cdTargetChar a then
        let cap := (a :: more).takeWhile cdTargetChar
        (⟨jsTrim cap⟩, (a :: more).drop cap.length)
      else cdBacktrack w rest
    | [] => cdBacktrack w rest

/-- Match `\s*cd` (case-insensitive) and then the optional target group
at the head of `cs`. -/
def cdAfterSep (cs : List Char) : Option (String × List Char) :=
  match cs.dropWhile jsSpace with
  | c :: d :: rest =>
    if (c = 'c' || c = 'C') && (d = 'd' || d = 'D') then some (cdGroup rest)
    else none
  | _ => none

/-- Try the `cd` pattern at one position, with its leading alternation
`(?:^|[;\n]|&&|\|\||\||&|\(|\))` tried in regex order. -/
def tryCdAt (cs : List Char) (atStart : Bool) : Option (String × List Char) :=
  (if atStart then cdAfterSep cs else none) <|>
  (match cs with
   | [] => none
   | c :: rest =>
     (if c = ';' || c = '\n' then cdAfterSep rest else none) <|>
     (match c :: rest with
      | '&' :: '&' :: r => cdAfterSep r
      | _ => none) <|>
     (match c :: rest with
      | '|' :: '|' :: r => cdAfterSep r
      | _ => none) <|>
     (if c = '|' || c = '&' || c = '(' || c = ')' then cdAfterSep rest else none))

/-- Global scan of the `cd` regex, advancing past each match
(`lastIndex` behaviour of a `g`-flagged `exec` loop). -/
def cdScanAux : Nat → List Char → Bool → List String
  | 0, _, _ => []
  | fuel + 1, cs, atStart =>
    match tryCdAt cs atStart with
    | some (t, after) => t :: cdScanAux fuel after false
    | none =>
      match cs with
      | [] => []
      | _ :: rest => cdScanAux fuel rest false

/-- Source `extractCdTargets(command)`. -/
def extractCdTargets (command : String) : List String :=
  cdScanAux (command.toList.length + 1) command.toList true

/-- Dynamic-target test: `/[`$]/.test(t) || /\$\(/.test(t)`. -/
def containsDynamic (t : String) : Bool :=
  t.toList.any (fun c => c = backtick || c = '$') || hasSub ['$', '('] t.toList

/-- A single or double quote character. -/
def isQuoteChar (c : Char) : Bool := c = '"' || c = Char.ofNat 39

/-- Source `rawTarget.replace(/^['\x22]|['\x22]$/g, '')`: strip one
leading and one trailing quote character. -/
def stripOuterQuotes (t : String) : String :=
  let l :=
    match t.toList with
    | c :: rest => if isQuoteChar c then rest else t.toList
    | [] => []
  match l.getLast? with
  | some c => if isQuoteChar c then ⟨l.dropLast⟩ else ⟨l⟩
  | none => ⟨l⟩

/-- Resolution of a `cd` target: strip surrounding quotes, then resolve
absolutely or against the resolved workspace. -/
def cdResolveTarget (resolvedWorkspace rawTarget : String) : String :=
  let target := stripOuterQuotes rawTarget
  if strStartsWith target "/" then nodeResolve target
  else nodeResolve2 resolvedWorkspace target

/-- The per-target `cd` checks of `checkWorkspaceIsolation`, in source
order; `none` means every target passed. -/
def checkCdTargetsLoop (targets : List String) (resolvedWorkspace : String) : Option String :=
  match targets with
  | [] => none
  | rawTarget :: rest =>
    if rawTarget == "" then
      some "BLOCKED: `cd` without an explicit target is not allowed."
    else if rawTarget == "-" || strStartsWith rawTarget "~" then
      some "BLOCKED: `cd` to home/previous directory is not allowed."
    else if containsDynamic rawTarget then
      some "BLOCKED: Dynamic `cd` targets are not allowed."
    else if !(isPathInsideWorkspace (cdResolveTarget resolvedWorkspace rawTarget)
        resolvedWorkspace) then
      some "BLOCKED: Cannot change directory outside your workspace."
    else checkCdTargetsLoop rest resolvedWorkspace

/-- True when the previous character admits a match of `(^|[^\w])`. -/
def boundaryOk : Option Char → Bool
  | none => true
  | some p => !(isWordChar p)

/-- One position of `\.\.(\/|\\)`. -/
def ddSlashAt : List Char → Bool
  | '.' :: '.' :: c :: _ => c = '/' || c = '\\'
  | _ => false

/-- Scan of `/(^|[^\w])\.\.(\/|\\)/` keeping track of the previous
character. -/
def testParentTraversalAux (prev : Option Char) : List Char → Bool
  | [] => false
  | c :: rest =>
    (boundaryOk prev && ddSlashAt (c :: rest)) || testParentTraversalAux (some c) rest

/-- Test `/(^|[^\w])\.\.(\/|\\)/` over the whole command. -/
def testParentTraversal (cs : List Char) : Bool := testParentTraversalAux none cs

/-- One position of `\bcd\s+\.\.(\s|$)/i`. -/
def cdDotDotAt (prev : Option Char) : List Char → Bool
  | c :: d :: rest =>
    boundaryOk prev && (c = 'c' || c = 'C') && (d = 'd' || d = 'D') &&
    (let w := rest.takeWhile jsSpace
     !w.isEmpty &&
       (match rest.drop w.length with
        | '.' :: '.' :: tail =>
          match tail with
          | [] => true
          | t :: _ => jsSpace t
        | _ => false))
  | _ => false

/-- Scan of `/\bcd\s+\.\.(\s|$)/i` keeping the previous character. -/
def testCdDotDotAux (prev : Option Char) : List Char → Bool
  | [] => false
  | c :: rest => cdDotDotAt prev (c :: rest) || testCdDotDotAux (some c) rest

/-- Test `/\bcd\s+\.\.(\s|$)/i` over the whole command. -/
def testCdDotDot (cs : List Char) : Bool := testCdDotDotAux none cs

/-- Characters admissible after `/workspace/` in an extracted workspace
path (`[^\s"'`|;&()]` — quotes written via code points). -/
def wsPathChar (c : Char) : Bool :=
  !(jsSpace c || c = '"' || c = Char.ofNat 39 || c = backtick || c = '|' || c = ';'
    || c = '&' || c = '(' || c = ')')

/-- Global scan of `\/workspace(?:\/[^\s"'`|;&()]+)?`: maximal matches,
non-overlapping, left to right. -/
def wsScanAux : Nat → List Char → List (List Char)
  | 0, _ => []
  | fuel + 1, cs =>
    match cs with
    | [] => []
    | _ :: rest =>
      if "/workspace".toList.isPrefixOf cs then
        let m :=
          match cs.drop 10 with
          | '/' :: a2 =>
            let run := a2.takeWhile wsPathChar
            if run.isEmpty then "/workspace".toList
            else "/workspace".toList ++ '/' :: run
          | _ => "/workspace".toList
        m :: wsScanAux fuel (cs.drop m.length)
      else wsScanAux fuel rest

/-- Deduplication preserving first occurrence (the `new Set` pass). -/
def dedupFirst (l : List String) : List String :=
  l.foldl (fun acc s => if s ∈ acc then acc else acc ++ [s]) []

/-- Source `extractWorkspacePaths(command)`: all `/workspace...`-shaped
substrings, resolved and deduplicated. -/
def extractWorkspacePaths (command : String) : List String :=
  dedupFirst
    (((wsScanAux (command.toList.length + 1) command.toList).map
      (fun m => nodeResolve ⟨m⟩)))

/-- The per-path checks of the `/workspace`-substring pass, in source
order; `none` means every extracted path passed. -/
def checkWsPathsLoop (paths : List String) (resolvedWorkspace : String) : Option String :=
  match paths with
  | [] => none
  | workspacePath :: rest =>
    if workspacePath == "/workspace" || workspacePath == "/workspace/" then
      some "BLOCKED: Cannot access /workspace root"
    else if strStartsWith workspacePath "/workspace/_shared" then
      some "BLOCKED: Cannot access shared workspace data"
    else if !(isPathInsideWorkspace workspacePath resolvedWorkspace) then
      some "BLOCKED: Cannot access other user workspaces. Use only your own workspace."
    else checkWsPathsLoop rest resolvedWorkspace

/-- Result shape `{ blocked, reason? }` of the command checks. -/
structure CheckResult where
  blocked : Bool
  reason : Option String
deriving DecidableEq

/-- Source `checkWorkspaceIsolation(command, userWorkspace)`: when the
working directory matches `\/workspace\/(\d+)`, run the Docker-secrets
test, the `cd`-target gating, the parent-traversal test and the
`/workspace`-substring pass, in that order; otherwise do nothing. -/
def checkWorkspaceIsolation (command userWorkspace : String) : CheckResult :=
  match matchWsUser userWorkspace.toList with
  | none => ⟨false, none⟩
  | some _ =>
    let resolvedWorkspace := nodeResolve userWorkspace
    if testRunSecrets command.toList then
      ⟨true, some "BLOCKED: Access to Docker secrets (/run/secrets) is not allowed."⟩
    else
      match checkCdTargetsLoop (extractCdTargets command) resolvedWorkspace with
      | some r => ⟨true, some r⟩
      | none =>
        if testParentTraversal command.toList || testCdDotDot command.toList then
          ⟨true,
            some "BLOCKED: Parent directory traversal is not allowed. Use only paths inside your workspace."⟩
        else
          match checkWsPathsLoop (extractWorkspacePaths command) resolvedWorkspace with
          | some r => ⟨true, some r⟩
          | none => ⟨false, none⟩

/-! ## Output sanitiser: base64-encoded secret detection -/

/-- A character of the base64 run class `[A-Za-z0-9+/]`. -/
def isB64Char (c : Char) : Bool := c.isAlpha ∨ c.isDigit ∨ c = '+' ∨ c = '/'

/-- Value of a base64 digit. -/
def b64Val (c : Char) : Nat :=
  if 'A' ≤ c ∧ c ≤ 'Z' then c.toNat - 65
  else if 'a' ≤ c ∧ c ≤ 'z' then c.toNat - 71
  else if '0' ≤ c ∧ c ≤ '9' then c.toNat + 4
  else if c = '+' then 62
  else if c = '/' then 63
  else 0

/-- Base64 decoding of 4-character groups to bytes, with Node's handling
of a trailing partial group (2 chars give 1 byte, 3 give 2, a lone char
is dropped). -/
def b64DecodeGroups : List Char → List Nat
  | a :: b :: c :: d :: rest =>
    (b64Val a * 4 + b64Val b / 16) ::
      (b64Val b % 16 * 16 + b64Val c / 4) ::
      (b64Val c % 4 * 64 + b64Val d) :: b64DecodeGroups rest
  | [a, b] => [b64Val a * 4 + b64Val b / 16]
  | [a, b, c] => [b64Val a * 4 + b64Val b / 16, b64Val b % 16 * 16 + b64Val c / 4]
  | _ => []

/-- Model of `Buffer.from(s, 'base64')` for strings drawn from the match
regex (base64 characters with trailing `=` padding): padding is ignored
and groups are decoded.  The decoded value is kept as bytes; the
`toString('utf-8')` step is modelled at the byte level, which agrees
with string search for the pure-ASCII indicator substrings tested
below. -/
def nodeB64Decode (cs : List Char) : List Nat :=
  b64DecodeGroups (cs.filter (fun c => !(c = '=')))

/-- Global scan of `[A-Za-z0-9+/]{100,}={0,2}`: maximal base64 runs of
at least 100 characters, each with up to two trailing `=`. -/
def base64Scan : Nat → List Char → List (List Char)
  | 0, _ => []
  | fuel + 1, cs =>
    match cs with
    | [] => []
    | _ :: rest =>
      let run := cs.takeWhile isB64Char
      if run.length ≥ 100 then
        let after := cs.drop run.length
        let eqs := (after.takeWhile (fun c => c = '=')).take 2
        (run ++ eqs) :: base64Scan fuel (after.drop eqs.length)
      else if run.length = 0 then base64Scan fuel rest
      else base64Scan fuel (cs.drop run.length)

/-- All long base64-looking runs of an output. -/
def base64Matches (output : String) : List (List Char) :=
  base64Scan (output.toList.length + 1) output.toList

/-- ASCII bytes of a needle string. -/
def asciiOf (s : String) : List Nat := s.toList.map Char.toNat

/-- Byte-level prefix test. -/
def bytesIsPre : List Nat → List Nat → Bool
  | [], _ => true
  | _ :: _, [] => false
  | p :: ps, b :: bs => p == b && bytesIsPre ps bs

/-- Byte-level substring test. -/
def bytesHasSub (needle : List Nat) : List Nat → Bool
  | [] => bytesIsPre needle []
  | b :: bs => bytesIsPre needle (b :: bs) || bytesHasSub needle bs

/-- Byte classes for the decoded-content regex tests. -/
def isDigitB (n : Nat) : Bool := 48 ≤ n ∧ n ≤ 57

/-- Lower-case hex byte (`[a-f0-9]`). -/
def isHexLowerB (n : Nat) : Bool := isDigitB n ∨ (97 ≤ n ∧ n ≤ 102)

/-- Alphanumeric byte. -/
def isAlnumB (n : Nat) : Bool := isDigitB n ∨ (65 ≤ n ∧ n ≤ 90) ∨ (97 ≤ n ∧ n ≤ 122)

/-- Byte of `[A-Za-z0-9_-]`. -/
def isTokenB (n : Nat) : Bool := isAlnumB n ∨ n == 95 ∨ n == 45

/-- Pattern `[a-f0-9]{32}\.[A-Za-z0-9]{10,}` at one position. -/
def zaiAtB (bs : List Nat) : Bool :=
  (bs.take 32).length == 32 && (bs.take 32).all isHexLowerB &&
  bs.getD 32 0 == 46 && ((bs.drop 33).takeWhile isAlnumB).length ≥ 10

/-- Pattern `sk-[A-Za-z0-9_-]{15,}` at one position. -/
def skAtB : List Nat → Bool
  | 115 :: 107 :: 45 :: rest => (rest.takeWhile isTokenB).length ≥ 15
  | _ => false

/-- Pattern `\d{9,12}:AA[A-Za-z0-9_-]{30,}` at one position. -/
def tgAtB (bs : List Nat) : Bool :=
  let run := bs.takeWhile isDigitB
  9 ≤ run.length && run.length ≤ 12 &&
  (match bs.drop run.length with
   | 58 :: 65 :: 65 :: rest => (rest.takeWhile isTokenB).length ≥ 30
   | _ => false)

/-- Pattern `\d{1,3}\.` at one position; returns the consumed length. -/
def ipGroupB (bs : List Nat) : Option Nat :=
  let run := bs.takeWhile isDigitB
  if 1 ≤ run.length ∧ run.length ≤ 3 then
    match bs.drop run.length with
    | 46 :: _ => some (run.length + 1)
    | _ => none
  else none

/-- Pattern `\d{1,3}\.\d{1,3}\.\d{1,3}\.\d{1,3}:\d+` at one position. -/
def ipAtB (bs : List Nat) : Bool :=
  match ipGroupB bs with
  | none => false
  | some n1 =>
    match ipGroupB (bs.drop n1) with
    | none => false
    | some n2 =>
      match ipGroupB ((bs.drop n1).drop n2) with
      | none => false
      | some n3 =>
        let rest := ((bs.drop n1).drop n2).drop n3
        let run := rest.takeWhile isDigitB
        1 ≤ run.length && run.length ≤ 3 &&
        (match rest.drop run.length with
         | 58 :: tail => !((tail.takeWhile isDigitB).isEmpty)
         | _ => false)

/-- Position-wise search of a byte predicate. -/
def scanBytes (p : List Nat → Bool) : List Nat → Bool
  | [] => p []
  | b :: bs => p (b :: bs) || scanBytes p bs

/-- The decoded-content test of `containsEncodedSecrets`: indicator
substrings and key-shaped patterns. -/
def hasSecretIndicator (bs : List Nat) : Bool :=
  bytesHasSub (asciiOf "API_KEY") bs ||
  bytesHasSub (asciiOf "TOKEN") bs ||
  bytesHasSub (asciiOf "SECRET") bs ||
  bytesHasSub (asciiOf "PASSWORD") bs ||
  bytesHasSub (asciiOf "TELEGRAM") bs ||
  bytesHasSub (asciiOf "process.env") bs ||
  bytesHasSub (asciiOf "ZAI_") bs ||
  bytesHasSub (asciiOf "BASE_URL") bs ||
  bytesHasSub (asciiOf "MCP_") bs ||
  bytesHasSub (asciiOf "WORKSPACE") bs ||
  scanBytes zaiAtB bs ||
  scanBytes skAtB bs ||
  scanBytes tgAtB bs ||
  scanBytes ipAtB bs

/-- Source `containsEncodedSecrets(output)`: some long base64 run
decodes to text containing a secret indicator. -/
def containsEncodedSecrets (output : String) : Bool :=
  (base64Matches output).any (fun m => hasSecretIndicator (nodeB64Decode m))

/-! ## Output sanitiser: structured environment-dump detection -/

/-- Match of `"[A-Z_]{3,}":` at one position; returns its length. -/
def jsonKeyAt : List Char → Option Nat
  | [] => none
  | c :: rest =>
    if c = '"' then
      let run := rest.takeWhile (fun c => ('A' ≤ c ∧ c ≤ 'Z') ∨ c = '_')
      if run.length ≥ 3 then
        match rest.drop run.length with
        | '"' :: ':' :: _ => some (run.length + 3)
        | _ => none
      else none
    else none

/-- Count the non-overlapping matches of a positional matcher. -/
def countScan (m : List Char → Option Nat) : Nat → List Char → Nat
  | 0, _ => 0
  | fuel + 1, cs =>
    match cs with
    | [] => 0
    | _ :: rest =>
      match m cs with
      | some n => if n = 0 then countScan m fuel rest else 1 + countScan m fuel (cs.drop n)
      | none => countScan m fuel rest

/-- Count of `/"[A-Z_]{3,}":/g` matches. -/
def countJsonKeys (output : String) : Nat :=
  countScan jsonKeyAt (output.toList.length + 1) output.toList

/-- Split on newlines (the lines `^`/`$` range over in an `m`-flagged
regex). -/
def splitNl : List Char → List (List Char)
  | [] => [[]]
  | c :: cs =>
    match splitNl cs with
    | [] => [[]]
    | s :: ss => if c = '\n' then [] :: s :: ss else (c :: s) :: ss

/-- A line matching `^[A-Z_]{3,}=.+$`. -/
def shellEnvLine (l : List Char) : Bool :=
  let run := l.takeWhile (fun c => ('A' ≤ c ∧ c ≤ 'Z') ∨ c = '_')
  run.length ≥ 3 &&
  (match l.drop run.length with
   | '=' :: rest => !rest.isEmpty
   | _ => false)

/-- Count of `/^[A-Z_]{3,}=.+$/gm` matches. -/
def countShellEnvLines (output : String) : Nat :=
  ((splitNl output.toList).filter shellEnvLine).length

/-- The quoted sensitive key names tested by the JSON branch. -/
def jsonSensitiveKeys : List String :=
  ["\"API_KEY\"", "\"TOKEN\"", "\"SECRET\"", "\"ZAI_", "\"TELEGRAM",
   "\"BASE_URL\"", "\"MCP_", "\"WORKSPACE\"", "\"HOME\"", "\"PATH\""]

/-- At least one quoted sensitive key occurs in the output. -/
def hasJsonSensitiveKey (output : String) : Bool :=
  jsonSensitiveKeys.any (fun k => hasSub k.toList output.toList)

/-- Source `containsSuspiciousEnvDump(output)`: JSON-style dumps need
more than 5 uppercase keys and a sensitive key name; shell-style dumps
need only more than 5 `VAR=value` lines. -/
def containsSuspiciousEnvDump (output : String) : Bool :=
  if countJsonKeys output > 5 then
    if hasJsonSensitiveKey output then true
    else countShellEnvLines output > 5
  else countShellEnvLines output > 5

/-! ## Output sanitiser: targeted redaction (`SECRET_PATTERNS`)

Each pattern of the source's `SECRET_PATTERNS` array becomes a matcher
taking the previous character (for word boundaries) and the current
suffix, and returning the match length at this position. -/

/-- A positional matcher: previous character, suffix, match length. -/
abbrev Matcher := Option Char → List Char → Option Nat

/-- The keyword alternation of the `KEY=value` pattern, in regex order
(`API[_-]?KEY` expands to its greedy order). -/
def kvKeywords : List (List Char) :=
  ["api_key".toList, "api-key".toList, "apikey".toList, "apikey".toList,
   "token".toList, "secret".toList, "password".toList, "pass".toList,
   "credential".toList, "auth".toList]

/-- After the prefix and keyword, match `[A-Za-z0-9_]*=([^\s\n]+)`,
returning the full match length. -/
def kvAfterKeyword (off : Nat) (cs : List Char) : Option Nat :=
  let rest := cs.drop off
  let suffix := rest.takeWhile isWordChar
  match rest.drop suffix.length with
  | '=' :: vrest =>
    let v := vrest.takeWhile (fun c => !(jsSpace c))
    if v.isEmpty then none else some (off + suffix.length + 1 + v.length)
  | _ => none

/-- Try each keyword (case-insensitively) at offset `plen`. -/
def kvTryKeywords : List (List Char) → Nat → List Char → Option Nat
  | [], _, _ => none
  | kw :: kws, plen, cs =>
    (if ciIsPre kw (cs.drop plen) then kvAfterKeyword (plen + kw.length) cs else none) <|>
    kvTryKeywords kws plen cs

/-- Greedy `[A-Za-z0-9_]*` prefix: try the longest prefix length first,
backtracking to 0. -/
def kvTryPlens : Nat → List Char → Option Nat
  | 0, cs => kvTryKeywords kvKeywords 0 cs
  | plen + 1, cs => kvTryKeywords kvKeywords (plen + 1) cs <|> kvTryPlens plen cs

/-- Pattern 1: `([A-Za-z0-9_]*(?:API[_-]?KEY|APIKEY|TOKEN|SECRET|PASSWORD|PASS|CREDENTIAL|AUTH)[A-Za-z0-9_]*)=([^\s\n]+)/gi`. -/
def kvMatcher : Matcher := fun _ cs =>
  kvTryPlens (cs.takeWhile isWordChar).length cs

/-- Pattern 2: `sk-[A-Za-z0-9]{20,}`. -/
def skMatcher : Matcher := fun _ cs =>
  if "sk-".toList.isPrefixOf cs then
    let run := (cs.drop 3).takeWhile (fun c => c.isAlpha ∨ c.isDigit)
    if run.length ≥ 20 then some (3 + run.length) else none
  else none

/-- Pattern 3: `tvly-[A-Za-z0-9-]{20,}`. -/
def tvlyMatcher : Matcher := fun _ cs =>
  if "tvly-".toList.isPrefixOf cs then
    let run := (cs.drop 5).takeWhile (fun c => c.isAlpha ∨ c.isDigit ∨ c = '-')
    if run.length ≥ 20 then some (5 + run.length) else none
  else none

/-- Lower-case hex character. -/
def isHexLower (c : Char) : Bool := c.isDigit ∨ ('a' ≤ c ∧ c ≤ 'f')

/-- Pattern 4: `[a-f0-9]{32}\.[A-Za-z0-9]{10,}`. -/
def zaiMatcher : Matcher := fun _ cs =>
  if (cs.take 32).length == 32 && (cs.take 32).all isHexLower then
    match cs.drop 32 with
    | '.' :: rest =>
      let run := rest.takeWhile (fun c => c.isAlpha ∨ c.isDigit)
      if run.length ≥ 10 then some (33 + run.length) else none
    | _ => none
  else none

/-- Pattern 5: `ghp_[A-Za-z0-9]{36,}`. -/
def ghpMatcher : Matcher := fun _ cs =>
  if "ghp_".toList.isPrefixOf cs then
    let run := (cs.drop 4).takeWhile (fun c => c.isAlpha ∨ c.isDigit)
    if run.length ≥ 36 then some (4 + run.length) else none
  else none

/-- Pattern 6: `gho_[A-Za-z0-9]{36,}`. -/
def ghoMatcher : Matcher := fun _ cs =>
  if "gho_".toList.isPrefixOf cs then
    let run := (cs.drop 4).takeWhile (fun c => c.isAlpha ∨ c.isDigit)
    if run.length ≥ 36 then some (4 + run.length) else none
  else none

/-- Pattern 7: `github_pat_[A-Za-z0-9_]{36,}`. -/
def ghPatMatcher : Matcher := fun _ cs =>
  if "github_pat_".toList.isPrefixOf cs then
    let run := (cs.drop 11).takeWhile isWordChar
    if run.length ≥ 36 then some (11 + run.length) else none
  else none

/-- Pattern 8: `xox[baprs]-[A-Za-z0-9-]{10,}`. -/
def slackMatcher : Matcher := fun _ cs =>
  match cs with
  | 'x' :: 'o' :: 'x' :: c :: '-' :: rest =>
    if c = 'b' ∨ c = 'a' ∨ c = 'p' ∨ c = 'r' ∨ c = 's' then
      let run := rest.takeWhile (fun c => c.isAlpha ∨ c.isDigit ∨ c = '-')
      if run.length ≥ 10 then some (5 + run.length) else none
    else none
  | _ => none

/-- Pattern 9: `\b[0-9]{8,12}:[A-Za-z0-9_-]{35}\b` (both word
boundaries modelled). -/
def tgWordMatcher : Matcher := fun prev cs =>
  if boundaryOk prev then
    let run := cs.takeWhile Char.isDigit
    if 8 ≤ run.length ∧ run.length ≤ 12 then
      match cs.drop run.length with
      | ':' :: rest =>
        let cls := rest.takeWhile (fun c => c.isAlpha ∨ c.isDigit ∨ c = '_' ∨ c = '-')
        if cls.length ≥ 35 then
          let last := rest.getD 34 ' '
          let nxtWord :=
            match rest.drop 35 with
            | [] => false
            | n :: _ => isWordChar n
          if isWordChar last ≠ nxtWord then some (run.length + 36) else none
        else none
      | _ => none
    else none
  else none

/-- Pattern 10: `Bearer\s+[A-Za-z0-9._-]{20,}/gi`. -/
def bearerMatcher : Matcher := fun _ cs =>
  if ciIsPre "bearer".toList cs then
    let w := (cs.drop 6).takeWhile jsSpace
    if w.isEmpty then none
    else
      let cls := ((cs.drop 6).drop w.length).takeWhile
        (fun c => c.isAlpha ∨ c.isDigit ∨ c = '.' ∨ c = '_' ∨ c = '-')
      if cls.length ≥ 20 then some (6 + w.length + cls.length) else none
  else none

/-- Pattern 11: `Basic\s+[A-Za-z0-9+/=]{20,}/gi`. -/
def basicMatcher : Matcher := fun _ cs =>
  if ciIsPre "basic".toList cs then
    let w := (cs.drop 5).takeWhile jsSpace
    if w.isEmpty then none
    else
      let cls := ((cs.drop 5).drop w.length).takeWhile
        (fun c => c.isAlpha ∨ c.isDigit ∨ c = '+' ∨ c = '/' ∨ c = '=')
      if cls.length ≥ 20 then some (5 + w.length + cls.length) else none
  else none

/-- Pattern 12: `AKIA[0-9A-Z]{16}`. -/
def akiaMatcher : Matcher := fun _ cs =>
  if "AKIA".toList.isPrefixOf cs then
    let next := ((cs.drop 4).take 16)
    if next.length == 16 && next.all (fun c => c.isDigit ∨ ('A' ≤ c ∧ c ≤ 'Z')) then
      some 20
    else none
  else none

/-- Pattern 13: `[A-Za-z0-9/+=]{40}(?=\s|$|")` — the lookahead is not
consumed. -/
def awsSecretMatcher : Matcher := fun _ cs =>
  let grab := cs.take 40
  if grab.length == 40 &&
      grab.all (fun c => c.isAlpha ∨ c.isDigit ∨ c = '/' ∨ c = '+' ∨ c = '=') then
    match cs.drop 40 with
    | [] => some 40
    | c :: _ => if jsSpace c ∨ c = '"' then some 40 else none
  else none

/-- Greedy `[A-Z ]+` followed by the literal ` PRIVATE KEY-----`: try
the longest run first; returns the run length used. -/
def pemHdrBack : Nat → List Char → Option Nat
  | 0, _ => none
  | k + 1, after =>
    if " PRIVATE KEY-----".toList.isPrefixOf (after.drop (k + 1)) then some (k + 1)
    else pemHdrBack k after

/-- Match the PEM block opener `-----BEGIN [A-Z ]+ PRIVATE KEY-----`. -/
def pemHeaderLen (cs : List Char) : Option Nat :=
  if "-----BEGIN ".toList.isPrefixOf cs then
    let after := cs.drop 11
    let run := after.takeWhile (fun c => ('A' ≤ c ∧ c ≤ 'Z') ∨ c = ' ')
    (pemHdrBack run.length after).map (fun k => 11 + k + 17)
  else none

/-- Match the PEM block closer `-----END [A-Z ]+ PRIVATE KEY-----`. -/
def pemEndLen (cs : List Char) : Option Nat :=
  if "-----END ".toList.isPrefixOf cs then
    let after := cs.drop 9
    let run := after.takeWhile (fun c => ('A' ≤ c ∧ c ≤ 'Z') ∨ c = ' ')
    (pemHdrBack run.length after).map (fun k => 9 + k + 17)
  else none

/-- Lazy `[\s\S]*?` up to the first position where the closer matches;
returns the distance plus the closer's length. -/
def pemFindEnd : Nat → List Char → Option Nat
  | 0, _ => none
  | fuel + 1, cs =>
    match pemEndLen cs with
    | some n => some n
    | none =>
      match cs with
      | [] => none
      | _ :: rest => (pemFindEnd fuel rest).map (· + 1)

/-- Pattern 14: the PEM private-key block. -/
def pemMatcher : Matcher := fun _ cs =>
  match pemHeaderLen cs with
  | some h => (pemFindEnd (cs.length + 1) (cs.drop h)).map (h + ·)
  | none => none

/-- The fixed env-var names of pattern 15, in regex order. -/
def envNameKeys : List (List Char) :=
  ["telegram_token".toList, "api_key".toList, "apikey".toList, "zai_api_key".toList,
   "tavily_api_key".toList, "base_url".toList, "mcp_url".toList]

/-- Try pattern 15's alternatives at one position. -/
def envNameTry : List (List Char) → List Char → Option Nat
  | [], _ => none
  | k :: ks, cs =>
    (if ciIsPre k cs then
      match cs.drop k.length with
      | '=' :: vrest =>
        let v := vrest.takeWhile (fun c => !(jsSpace c))
        if v.isEmpty then none else some (k.length + 1 + v.length)
      | _ => none
    else none) <|> envNameTry ks cs

/-- Pattern 15: `(?:TELEGRAM_TOKEN|API_KEY|APIKEY|ZAI_API_KEY|TAVILY_API_KEY|BASE_URL|MCP_URL)=\S+/gi`. -/
def envNameMatcher : Matcher := fun _ cs => envNameTry envNameKeys cs

/-- Pattern `\d{1,3}\.` at one position, on characters. -/
def ipGroupC (cs : List Char) : Option Nat :=
  let run := cs.takeWhile Char.isDigit
  if 1 ≤ run.length ∧ run.length ≤ 3 then
    match cs.drop run.length with
    | '.' :: _ => some (run.length + 1)
    | _ => none
  else none

/-- Pattern 16: `https?:\/\/\d{1,3}\.\d{1,3}\.\d{1,3}\.\d{1,3}:\d+[^\s"]*`. -/
def ipUrlMatcher : Matcher := fun _ cs =>
  if "http".toList.isPrefixOf cs then
    let body :=
      match cs.drop 4 with
      | 's' :: r2 => if "://".toList.isPrefixOf r2 then some (5 + 3, r2.drop 3) else none
      | r2 => if "://".toList.isPrefixOf r2 then some (4 + 3, r2.drop 3) else none
    match body with
    | none => none
    | some (hlen, rest) =>
      match ipGroupC rest with
      | none => none
      | some n1 =>
        match ipGroupC (rest.drop n1) with
        | none => none
        | some n2 =>
          match ipGroupC ((rest.drop n1).drop n2) with
          | none => none
          | some n3 =>
            let r4 := ((rest.drop n1).drop n2).drop n3
            let run := r4.takeWhile Char.isDigit
            if 1 ≤ run.length ∧ run.length ≤ 3 then
              match r4.drop run.length with
              | ':' :: tail =>
                let port := tail.takeWhile Char.isDigit
                if port.isEmpty then none
                else
                  let trail := (tail.drop port.length).takeWhile
                    (fun c => !(jsSpace c) && !(c = '"'))
                  some (hlen + n1 + n2 + n3 + run.length + 1 + port.length + trail.length)
              | _ => none
            else none
  else none

/-- Pattern 17: `\d{9,12}:AA[A-Za-z0-9_-]{30,}`. -/
def tgTokenMatcher : Matcher := fun _ cs =>
  let run := cs.takeWhile Char.isDigit
  if 9 ≤ run.length ∧ run.length ≤ 12 then
    match cs.drop run.length with
    | ':' :: 'A' :: 'A' :: rest =>
      let cls := rest.takeWhile (fun c => c.isAlpha ∨ c.isDigit ∨ c = '_' ∨ c = '-')
      if cls.length ≥ 30 then some (run.length + 3 + cls.length) else none
    | _ => none
  else none

/-- The source's `SECRET_PATTERNS` array, in order. -/
def SECRET_PATTERNS : List Matcher :=
  [kvMatcher, skMatcher, tvlyMatcher, zaiMatcher, ghpMatcher, ghoMatcher,
   ghPatMatcher, slackMatcher, tgWordMatcher, bearerMatcher, basicMatcher,
   akiaMatcher, awsSecretMatcher, pemMatcher, envNameMatcher, ipUrlMatcher,
   tgTokenMatcher]

/-- The shared replacement callback: `KEY=value` matches keep the key,
long raw matches keep a 4-character hint, short matches are erased. -/
def redactMatch (m : List Char) : List Char :=
  if m.any (fun c => c = '=') then
    m.takeWhile (fun c => !(c = '=')) ++ "=[REDACTED]".toList
  else if m.length > 10 then m.take 4 ++ "***[REDACTED]***".toList
  else "[REDACTED]".toList

/-- Pattern `String.replace(pattern, cb)` for a global pattern: scan left to
right, replacing each non-overlapping match and resuming after it. -/
def replaceScan (m : Matcher) : Nat → Option Char → List Char → List Char
  | 0, _, cs => cs
  | fuel + 1, prev, cs =>
    match cs with
    | [] => []
    | c :: rest =>
      match m prev (c :: rest) with
      | some n =>
        if n = 0 then c :: replaceScan m fuel (some c) rest
        else
          redactMatch ((c :: rest).take n) ++
            replaceScan m fuel ((c :: rest).take n).getLast? ((c :: rest).drop n)
      | none => c :: replaceScan m fuel (some c) rest

/-- One full redaction pass over all patterns. -/
def applyRedaction (cs : List Char) : List Char :=
  SECRET_PATTERNS.foldl (fun acc m => replaceScan m (acc.length + 1) none acc) cs

/-- Source `sanitizeOutput(output)`: block encoded dumps, then
structured dumps, then fall through to targeted redaction. -/
def sanitizeOutput (output : String) : String :=
  if containsEncodedSecrets output then
    "🚫 [OUTPUT BLOCKED: Contains encoded sensitive data]"
  else if containsSuspiciousEnvDump output then
    "🚫 [OUTPUT BLOCKED: Looks like environment dump]"
  else ⟨applyRedaction output.toList⟩

/-! ## Sensitive file names and paths -/

/-- Lower-cased string (ASCII case folding, as `toLowerCase` performs on
the ASCII paths involved). -/
def toLowerStr (s : String) : String := ⟨s.toList.map Char.toLower⟩

/-- Model of Node `path.basename`: the last segment, ignoring trailing
slashes. -/
def nodeBasename (p : String) : String :=
  ⟨(((p.toList.reverse).dropWhile (fun c => c = '/')).takeWhile (fun c => !(c = '/'))).reverse⟩

/-- The source's `SENSITIVE_FILES` list. -/
def SENSITIVE_FILES : List String :=
  [".env", ".env.local", ".env.production", ".env.development", ".env.staging",
   "credentials.json", "credentials.yaml", "secrets.json", "secrets.yaml",
   ".secrets", "service-account.json", "serviceAccountKey.json", ".npmrc",
   ".pypirc", "id_rsa", "id_ed25519", "id_ecdsa", "id_dsa", ".pem", ".key"]

/-- Position-wise search of a character predicate. -/
def scanPos (p : List Char → Bool) : List Char → Bool
  | [] => p []
  | c :: cs => p (c :: cs) || scanPos p cs

/-- Suffix test on character lists. -/
def listEndsWith (l suffix : List Char) : Bool :=
  suffix.reverse.isPrefixOf l.reverse

/-- Lower-case ASCII letter. -/
def isLowerAlpha (c : Char) : Bool := 'a' ≤ c ∧ c ≤ 'z'

/-- Pattern `\.env(\.[a-z]+)?$` at one position (input already lower-cased). -/
def envPatAt (cs : List Char) : Bool :=
  ".env".toList.isPrefixOf cs &&
  (let rest := cs.drop 4
   rest.isEmpty ||
     (match rest with
      | '.' :: ls => !ls.isEmpty && ls.all isLowerAlpha
      | _ => false))

/-- Pattern `(json|yaml|yml)` as the entire remaining input (anchored `$`). -/
def extAnchored (rest : List Char) : Bool :=
  rest == ".json".toList || rest == ".yaml".toList || rest == ".yml".toList

/-- Pattern `credentials?\.(json|yaml|yml)$` at one position. -/
def credentialPatAt (cs : List Char) : Bool :=
  "credential".toList.isPrefixOf cs &&
  (let rest := cs.drop 10
   extAnchored rest ||
     (match rest with
      | 's' :: r2 => extAnchored r2
      | _ => false))

/-- Pattern `secrets?\.(json|yaml|yml)$` at one position. -/
def secretPatAt (cs : List Char) : Bool :=
  "secret".toList.isPrefixOf cs &&
  (let rest := cs.drop 6
   extAnchored rest ||
     (match rest with
      | 's' :: r2 => extAnchored r2
      | _ => false))

/-- Pattern `.*\.json$` for the service-account pattern: the input ends with
`.json` and holds no newline before it. -/
def dotJsonTail (rest : List Char) : Bool :=
  listEndsWith rest ".json".toList &&
  (rest.take (rest.length - 5)).all (fun c => !(c = '\n'))

/-- Pattern `service.?account.*\.json$` at one position. -/
def serviceAccountPatAt (cs : List Char) : Bool :=
  "service".toList.isPrefixOf cs &&
  (let r7 := cs.drop 7
   (match r7 with
    | c :: r8 => !(c = '\n') && "account".toList.isPrefixOf r8 && dotJsonTail (r8.drop 7)
    | [] => false) ||
   ("account".toList.isPrefixOf r7 && dotJsonTail (r7.drop 7)))

/-- Pattern `private.?key` at one position. -/
def privateKeyPatAt (cs : List Char) : Bool :=
  "private".toList.isPrefixOf cs &&
  (let r7 := cs.drop 7
   (match r7 with
    | c :: r8 => !(c = '\n') && "key".toList.isPrefixOf r8
    | [] => false) ||
   "key".toList.isPrefixOf r7)

/-- The source's `SENSITIVE_PATTERNS` regex list, on the lower-cased
full path. -/
def sensPatternsTest (cs : List Char) : Bool :=
  scanPos envPatAt cs ||
  scanPos credentialPatAt cs ||
  scanPos secretPatAt cs ||
  scanPos serviceAccountPatAt cs ||
  scanPos privateKeyPatAt cs ||
  (listEndsWith cs "id_rsa".toList || listEndsWith cs "id_dsa".toList ||
    listEndsWith cs "id_ecdsa".toList || listEndsWith cs "id_ed25519".toList) ||
  (listEndsWith cs ".pem".toList || listEndsWith cs ".key".toList ||
    listEndsWith cs ".p12".toList || listEndsWith cs ".pfx".toList)

/-- Source `isSensitiveFile(filePath)`. -/
def isSensitiveFile (filePath : String) : Bool :=
  let fileName := toLowerStr (nodeBasename filePath)
  let fullPath := toLowerStr filePath
  SENSITIVE_FILES.any (fun f => fileName == toLowerStr f) ||
  sensPatternsTest fullPath.toList ||
  (hasSub "/.ssh/".toList fullPath.toList || hasSub "\\.ssh\\".toList fullPath.toList) ||
  (hasSub "/run/secrets".toList fullPath.toList ||
    hasSub "/var/run/secrets".toList fullPath.toList)

/-! ## Dangerous file content (`containsDangerousCode`) -/

/-- Pattern `from\s+os\s+import\s+environ` at one position (case-insensitive). -/
def fromOsImportAt (cs : List Char) : Bool :=
  ciIsPre "from".toList cs &&
  (let r1 := cs.drop 4
   let w1 := r1.takeWhile jsSpace
   !w1.isEmpty && ciIsPre "os".toList (r1.drop w1.length) &&
   (let r2 := (r1.drop w1.length).drop 2
    let w2 := r2.takeWhile jsSpace
    !w2.isEmpty && ciIsPre "import".toList (r2.drop w2.length) &&
    (let r3 := (r2.drop w2.length).drop 6
     let w3 := r3.takeWhile jsSpace
     !w3.isEmpty && ciIsPre "environ".toList (r3.drop w3.length))))

/-- Pattern `require\s*\(\s*['"]dotenv['"]\s*\)` at one position. -/
def requireDotenvAt (cs : List Char) : Bool :=
  ciIsPre "require".toList cs &&
  (match (cs.drop 7).dropWhile jsSpace with
   | '(' :: r1 =>
     (match r1.dropWhile jsSpace with
      | q1 :: r2 =>
        isQuoteChar q1 && ciIsPre "dotenv".toList r2 &&
        (match r2.drop 6 with
         | q2 :: r3 =>
           isQuoteChar q2 &&
           (match r3.dropWhile jsSpace with
            | ')' :: _ => true
            | _ => false)
         | [] => false)
      | [] => false)
   | _ => false)

/-- Pattern `\$\{?[A-Z_]*(KEY|TOKEN|SECRET|PASSWORD|CREDENTIAL)[A-Z_]*\}?` at one
position (case-insensitive): a secret-looking name in the identifier run
after `$` or `${`. -/
def dollarSecretAt (cs : List Char) : Bool :=
  match cs with
  | '$' :: rest =>
    let body := match rest with
      | '{' :: r2 => r2
      | r2 => r2
    let run := body.takeWhile (fun c => c.isAlpha ∨ c = '_')
    ciHasSub "key".toList run || ciHasSub "token".toList run ||
    ciHasSub "secret".toList run || ciHasSub "password".toList run ||
    ciHasSub "credential".toList run
  | _ => false

/-- Search for a target on the same line (a dot-star cannot cross a
newline). -/
def sameLineFind (target : List Char → Bool) : List Char → Bool
  | [] => target []
  | c :: cs => target (c :: cs) || (if c = '\n' then false else sameLineFind target cs)

/-- Pattern `(-d|--data|POST)` at one position (case-insensitive). -/
def curlPostTargetAt (cs : List Char) : Bool :=
  ciIsPre "-d".toList cs || ciIsPre "--data".toList cs || ciIsPre "post".toList cs

/-- Pattern `curl\s+.*(-d|--data|POST)` at one position. -/
def curlPostAt (cs : List Char) : Bool :=
  ciIsPre "curl".toList cs &&
  (let rest := cs.drop 4
   let w := rest.takeWhile jsSpace
   !w.isEmpty && sameLineFind curlPostTargetAt (rest.drop w.length))

/-- Pattern `method:\s*['"]POST` at one position. -/
def fetchMethodAt (cs : List Char) : Bool :=
  ciIsPre "method:".toList cs &&
  (match (cs.drop 7).dropWhile jsSpace with
   | q :: r => isQuoteChar q && ciIsPre "post".toList r
   | [] => false)

/-- Pattern `fetch\s*\(.*method:\s*['"]POST` at one position. -/
def fetchPostAt (cs : List Char) : Bool :=
  ciIsPre "fetch".toList cs &&
  (match (cs.drop 5).dropWhile jsSpace with
   | '(' :: r1 => sameLineFind fetchMethodAt r1
   | _ => false)

/-- Pattern `socket\s*\(\s*\)\s*\.connect` at one position. -/
def socketConnectAt (cs : List Char) : Bool :=
  ciIsPre "socket".toList cs &&
  (match (cs.drop 6).dropWhile jsSpace with
   | '(' :: r1 =>
     (match r1.dropWhile jsSpace with
      | ')' :: r2 => ciIsPre ".connect".toList (r2.dropWhile jsSpace)
      | _ => false)
   | _ => false)

/-- Pattern `nc\s+.*-e` at one position. -/
def ncExecAt (cs : List Char) : Bool :=
  ciIsPre "nc".toList cs &&
  (let rest := cs.drop 2
   let w := rest.takeWhile jsSpace
   !w.isEmpty && sameLineFind (fun l => ciIsPre "-e".toList l) (rest.drop w.length))

/-- Pattern `open\s*\(\s*['"]` at one position; returns the rest after the
quote. -/
def openQuoteAt (cs : List Char) : Option (List Char) :=
  if ciIsPre "open".toList cs then
    match (cs.drop 4).dropWhile jsSpace with
    | '(' :: r1 =>
      match r1.dropWhile jsSpace with
      | q :: r2 => if isQuoteChar q then some r2 else none
      | [] => none
    | _ => none
  else none

/-- Pattern `open\s*\(\s*['"]\/etc\/` at one position. -/
def openEtcAt (cs : List Char) : Bool :=
  match openQuoteAt cs with
  | some r => ciIsPre "/etc/".toList r
  | none => false

/-- Pattern `open\s*\(\s*['"].*\.env['"]` at one position. -/
def openEnvAt (cs : List Char) : Bool :=
  match openQuoteAt cs with
  | some r =>
    sameLineFind
      (fun l =>
        ciIsPre ".env".toList l &&
        (match l.drop 4 with
         | q :: _ => isQuoteChar q
         | [] => false)) r
  | none => false

/-- Pattern `readFileSync\s*\(\s*['"].*\.env` at one position. -/
def readFileEnvAt (cs : List Char) : Bool :=
  ciIsPre "readfilesync".toList cs &&
  (match (cs.drop 12).dropWhile jsSpace with
   | '(' :: r1 =>
     (match r1.dropWhile jsSpace with
      | q :: r2 =>
        isQuoteChar q && sameLineFind (fun l => ciIsPre ".env".toList l) r2
      | [] => false)
   | _ => false)

/-- A name followed by `\s*\(` (case-insensitive), anywhere. -/
def nameParenTest (name : List Char) (cs : List Char) : Bool :=
  scanPos
    (fun l =>
      ciIsPre name l &&
      (match (l.drop name.length).dropWhile jsSpace with
       | '(' :: _ => true
       | _ => false)) cs

/-- Server-creation indicators of the compound check. -/
def hasServerCode (cs : List Char) : Bool :=
  nameParenTest "createserver".toList cs || ciHasSub "http.createserver".toList cs ||
  nameParenTest "express".toList cs || nameParenTest "fastify".toList cs ||
  nameParenTest "koa".toList cs || nameParenTest "flask".toList cs ||
  nameParenTest "fastapi".toList cs

/-- Filesystem-read indicators of the compound check. -/
def hasFileRead (cs : List Char) : Bool :=
  ciHasSub "readfilesync".toList cs || ciHasSub "readdirsync".toList cs ||
  ciHasSub "createreadstream".toList cs || ciHasSub "fs.readfile".toList cs ||
  ciHasSub "fs.readdir".toList cs || nameParenTest "open".toList cs ||
  ciHasSub "os.listdir".toList cs

/-- Pattern `get\(\s*['"](?:f|d|path|file|dir)['"]` at one position. -/
def getParamAt (cs : List Char) : Bool :=
  ciIsPre "get(".toList cs &&
  (match (cs.drop 4).dropWhile jsSpace with
   | q :: r =>
     isQuoteChar q &&
     ((match r with
       | c :: q2 :: _ => (c = 'f' ∨ c = 'F' ∨ c = 'd' ∨ c = 'D') && isQuoteChar q2
       | _ => false) ||
      (ciIsPre "path".toList r && (match r.drop 4 with
        | q2 :: _ => isQuoteChar q2
        | [] => false)) ||
      (ciIsPre "file".toList r && (match r.drop 4 with
        | q2 :: _ => isQuoteChar q2
        | [] => false)) ||
      (ciIsPre "dir".toList r && (match r.drop 3 with
        | q2 :: _ => isQuoteChar q2
        | [] => false)))
   | [] => false)

/-- Request-controlled-path indicators of the compound check. -/
def hasUserControlledPath (cs : List Char) : Bool :=
  ciHasSub "searchparams.get".toList cs || ciHasSub "req.query".toList cs ||
  ciHasSub "req.url".toList cs || ciHasSub "request.args".toList cs ||
  scanPos getParamAt cs

/-- Source `containsDangerousCode(content)`: the ordered dangerous
pattern list, then the compound exfiltration-server heuristic; returns
the first matching reason. -/
def containsDangerousCode (content : String) : Option String :=
  let cs := content.toList
  if ciHasSub "os.environ".toList cs then some "os.environ access"
  else if ciHasSub "os.getenv".toList cs then some "os.getenv access"
  else if scanPos fromOsImportAt cs then some "environ import"
  else if ciHasSub "load_dotenv".toList cs then some "dotenv loading"
  else if ciHasSub "process.env".toList cs then some "process.env access"
  else if scanPos requireDotenvAt cs then some "dotenv require"
  else if scanPos dollarSecretAt cs then some "secret variable reference"
  else if scanPos curlPostAt cs then some "curl POST request"
  else if ciHasSub "requests.post".toList cs || ciHasSub "requests.put".toList cs then
    some "Python HTTP POST"
  else if scanPos fetchPostAt cs then some "fetch POST"
  else if scanPos socketConnectAt cs then some "socket connect"
  else if ciHasSub "/dev/tcp/".toList cs then some "bash TCP redirect"
  else if scanPos ncExecAt cs then some "netcat exec"
  else if scanPos openEtcAt cs then some "reading /etc"
  else if scanPos openEnvAt cs then some "reading .env file"
  else if scanPos readFileEnvAt cs then some "reading .env file"
  else if hasServerCode cs && hasFileRead cs && hasUserControlledPath cs then
    some "file exfiltration server pattern"
  else none

/-! ## Filesystem model and the file tools

Stateful `fs` calls are modelled by explicit state passing over a flat
map from resolved paths to entries.  Symlinks are modelled as leaf
entries resolved one level by `realpathSync` (the claims need no
chains); directories are not modelled (`mkdirSync` is a no-op). -/

/-- A filesystem entry: a regular file or a symbolic link. -/
inductive FsEntry where
  | file (content : String)
  | symlink (target : String)
deriving DecidableEq

/-- The filesystem state: resolved path to entry. -/
structure FileSys where
  entries : List (String × FsEntry)
deriving DecidableEq

/-- Look a path up. -/
def FileSys.lookup (σ : FileSys) (p : String) : Option FsEntry :=
  (σ.entries.find? (fun e => e.1 == p)).map Prod.snd

/-- Model of `realpathSync`: resolve a symlink entry to its target. -/
def realpathFs (σ : FileSys) (p : String) : String :=
  match σ.lookup p with
  | some (.symlink t) => nodeResolve t
  | _ => p

/-- Model of `existsSync`: the path (through a symlink) names a file. -/
def existsFs (σ : FileSys) (p : String) : Bool :=
  match σ.lookup (realpathFs σ p) with
  | some (.file _) => true
  | _ => false

/-- Model of `readFileSync`. -/
def readFs (σ : FileSys) (p : String) : Option String :=
  match σ.lookup (realpathFs σ p) with
  | some (.file c) => some c
  | _ => none

/-- Model of `writeFileSync`: bind the real path to the new content. -/
def writeFs (σ : FileSys) (p content : String) : FileSys :=
  let t := realpathFs σ p
  ⟨(σ.entries.filter (fun e => !(e.1 == t))) ++ [(t, .file content)]⟩

/-- Model of `unlinkSync`: remove the entry itself (a symlink is
removed, not followed). -/
def unlinkFs (σ : FileSys) (p : String) : FileSys :=
  ⟨σ.entries.filter (fun e => !(e.1 == p))⟩

/-- The sensitive prefixes of the symlink-target check. -/
def sensitiveRealPaths : List String :=
  ["/etc", "/root", "/home", "/proc", "/sys", "/dev", "/var"]

/-- Source `isSymlinkEscape(filePath, workspacePath)` over the model. -/
def isSymlinkEscape (σ : FileSys) (filePath workspacePath : String) :
    Bool × Option String :=
  if !(existsFs σ filePath) then (false, none)
  else
    let realPath := realpathFs σ filePath
    let realWorkspace := realpathFs σ workspacePath
    if !(isPathInsideWorkspace realPath realWorkspace) then
      (true, some ("Ссылка (symlink) указывает вне workspace (" ++ realPath ++ ")"))
    else
      match σ.lookup filePath with
      | some (.symlink _) =>
        (match sensitiveRealPaths.find? (fun s => strStartsWith realPath s) with
         | some s =>
           (true, some ("Ссылка (symlink) указывает на чувствительный путь (" ++ s ++ ")"))
         | none => (false, none))
      | _ => (false, none)

/-- Result shape of a file tool call. -/
structure ToolResult where
  success : Bool
  output : Option String
  error : Option String
deriving DecidableEq

/-- Path resolution shared by the file tools: absolute paths are taken
as-is, relative ones joined to the cwd, then `resolve`d. -/
def resolveToolPath (cwd path : String) : String :=
  nodeResolve (if strStartsWith path "/" then path else nodeResolve2 cwd path)

/-- The offset/limit line slice of `read_file` (`offset || 1` maps a
falsy 0 to 1; selected lines are prefixed with their 1-based number). -/
def sliceLines (content : String) (offset limit : Option Nat) : String :=
  let lines := (splitNl content.toList).map (fun l => (⟨l⟩ : String))
  let start := (match offset with
    | some o => if o = 0 then 1 else o
    | none => 1) - 1
  let stop := match limit with
    | some l => if l = 0 then lines.length else start + l
    | none => lines.length
  String.intercalate "\n"
    (((lines.drop start).take (stop - start)).mapIdx
      (fun i l => toString (start + i + 1) ++ "|" ++ l))

/-- Source `executeRead` (`read_file`). -/
def executeRead (σ : FileSys) (path : String) (offset limit : Option Nat)
    (cwd : String) : ToolResult :=
  let resolvedPath := resolveToolPath cwd path
  let access := ensureWorkspaceAccess resolvedPath cwd
  if !(access.allowed) then
    ⟨false, none, some ("🚫 BLOCKED: " ++ access.reason.getD "")⟩
  else if isSensitiveFile resolvedPath then
    ⟨false, none,
      some ("🚫 BLOCKED: Нельзя читать чувствительный файл ("
        ++ nodeBasename resolvedPath ++ "). Он может содержать секреты.")⟩
  else if (isSymlinkEscape σ resolvedPath cwd).1 then
    ⟨false, none, some ("🚫 BLOCKED: " ++ (isSymlinkEscape σ resolvedPath cwd).2.getD "")⟩
  else
    match readFs σ resolvedPath with
    | none => ⟨false, none, some ("Файл не найден: " ++ path)⟩
    | some content0 =>
      let content1 :=
        match offset, limit with
        | none, none => content0
        | _, _ => sliceLines content0 offset limit
      let content2 :=
        if content1.toList.length > 100000 then
          (⟨content1.toList.take 100000⟩ : String) ++ "\n...(сокращено)"
        else content1
      ⟨true, some (if content2 == "" then "(пустой файл)" else content2), none⟩

/-- Source `executeWrite` (`write_file`). -/
def executeWrite (σ : FileSys) (path content cwd : String) : FileSys × ToolResult :=
  let resolvedPath := resolveToolPath cwd path
  let access := ensureWorkspaceAccess resolvedPath cwd
  if !(access.allowed) then
    (σ, ⟨false, none, some ("🚫 BLOCKED: " ++ access.reason.getD "")⟩)
  else if isSensitiveFile resolvedPath then
    (σ, ⟨false, none,
      some ("🚫 BLOCKED: Нельзя писать в чувствительный файл ("
        ++ nodeBasename resolvedPath ++ ")")⟩)
  else if (isSymlinkEscape σ resolvedPath cwd).1 then
    (σ, ⟨false, none, some ("🚫 BLOCKED: " ++ (isSymlinkEscape σ resolvedPath cwd).2.getD "")⟩)
  else
    match containsDangerousCode content with
    | some reason =>
      (σ, ⟨false, none,
        some ("🚫 BLOCKED: Файл содержит опасный код (" ++ reason
          ++ "). Нельзя писать файлы, которые могут утечь секретами.")⟩)
    | none =>
      (writeFs σ resolvedPath content,
        ⟨true, some ("Записано " ++ toString content.toList.length ++ " байт в " ++ path),
          none⟩)

/-- Source `executeDelete` (`delete_file`): only the workspace access
check and an existence check guard the unlink. -/
def executeDelete (σ : FileSys) (path cwd : String) : FileSys × ToolResult :=
  let resolvedPath := resolveToolPath cwd path
  let access := ensureWorkspaceAccess resolvedPath cwd
  if !(access.allowed) then
    (σ, ⟨false, none, some ("🚫 BLOCKED: " ++ access.reason.getD "")⟩)
  else if !(existsFs σ resolvedPath) then
    (σ, ⟨false, none, some ("Файл не найден: " ++ path)⟩)
  else
    (unlinkFs σ resolvedPath, ⟨true, some ("Удалено: " ++ path), none⟩)

/-! ## Approval workflow (pending-command store) -/

/-- Modelled from the spec: the approvals module (`storePendingCommand`,
`resolvePending`, `getSessionPendingCommands` in `src/approvals/index.ts`)
is not among the provided sources; only its import sites are.  Per the
spec, a `PendingCommand` carries an opaque unique id, the owning
session, the chat, the command text, the working directory, the reason
and a creation time. -/
structure PendingCommand where
  id : String
  sessionId : String
  chatId : Int
  command : String
  cwd : String
  reason : String
deriving DecidableEq

/-- Modelled from the spec: the pending store is an in-memory mapping
keyed by generated unique ids; a counter generates fresh ids. -/
structure PendingStore where
  counter : Nat
  entries : List (String × PendingCommand)
deriving DecidableEq

/-- Modelled from the spec: `store(sessionId, chatId, command, cwd,
reason) -> pendingId` inserts a new entry under a fresh id. -/
def storePendingCommand (st : PendingStore) (sessionId : String) (chatId : Int)
    (command cwd reason : String) : String × PendingStore :=
  let id := "cmd_" ++ toString st.counter
  (id, ⟨st.counter + 1,
    st.entries ++ [(id, ⟨id, sessionId, chatId, command, cwd, reason⟩)]⟩)

/-- Modelled from the spec: `resolve(pendingId, decision)` looks the id
up and removes the entry atomically (check-and-remove); a missing id
reports not-found (`none`) and leaves the store untouched.  The
approve/deny decision only routes the returned command, so it does not
appear in the store transition. -/
def resolvePending (st : PendingStore) (id : String) :
    Option PendingCommand × PendingStore :=
  match st.entries.find? (fun e => e.1 == id) with
  | some e => (some e.2, ⟨st.counter, st.entries.filter (fun e => !(e.1 == id))⟩)
  | none => (none, st)

/-! ## Structural lemmas about the path model -/

theorem splitSegs_ne_nil (cs : List Char) : splitSegs cs ≠ [] := by
  cases cs with
  | nil => simp [splitSegs]
  | cons c cs =>
    simp only [splitSegs]
    rcases h : splitSegs cs with _ | ⟨s, ss⟩
    · simp
    · by_cases hc : c = '/' <;> simp [hc]

theorem no_slash_of_mem_splitSegs :
    ∀ cs s : List Char, s ∈ splitSegs cs → '/' ∉ s := by
  intro cs
  induction cs with
  | nil => intro s hs; simp [splitSegs] at hs; simp [hs]
  | cons c cs ih =>
    intro s hs
    obtain ⟨t, ts, h⟩ : ∃ t ts, splitSegs cs = t :: ts := by
      rcases hne : splitSegs cs with _ | ⟨t, ts⟩
      · exact absurd hne (splitSegs_ne_nil cs)
      · exact ⟨t, ts, rfl⟩
    simp only [splitSegs, h] at hs
    by_cases hc : c = '/'
    · rw [if_pos hc] at hs
      simp only [List.mem_cons] at hs
      rcases hs with rfl | hs | hs
      · simp
      · rw [hs]; exact ih t (by rw [h]; exact List.mem_cons_self t ts)
      · exact ih s (by rw [h]; exact List.mem_cons_of_mem t hs)
    · rw [if_neg hc] at hs
      simp only [List.mem_cons] at hs
      rcases hs with rfl | hs
      · intro hin
        rcases List.mem_cons.mp hin with h1 | h1
        · exact hc h1.symm
        · exact ih t (by rw [h]; exact List.mem_cons_self t ts) h1
      · exact ih s (by rw [h]; exact List.mem_cons_of_mem t hs)

/-- Every segment kept by `normSegs` is a member of the input list and is
neither empty nor `.` nor `..`. -/
theorem mem_normSegs {segs : List (List Char)} {s : List Char}
    (h : s ∈ normSegs segs) :
    s ∈ segs ∧ s ≠ [] ∧ s ≠ ['.'] ∧ s ≠ ['.', '.'] := by
  have key : ∀ (l : List (List Char)) (acc : List (List Char)),
      (∀ t ∈ acc, t ∈ segs ∧ t ≠ [] ∧ t ≠ ['.'] ∧ t ≠ ['.', '.']) →
      (∀ t ∈ l, t ∈ segs) →
      ∀ t ∈ l.foldl
        (fun acc seg =>
          if seg = [] ∨ seg = ['.'] then acc
          else if seg = ['.', '.'] then acc.dropLast
          else acc ++ [seg]) acc,
        t ∈ segs ∧ t ≠ [] ∧ t ≠ ['.'] ∧ t ≠ ['.', '.'] := by
    intro l
    induction l with
    | nil => intro acc hacc _ t ht; exact hacc t ht
    | cons x xs ih =>
      intro acc hacc hl t ht
      simp only [List.foldl_cons] at ht
      by_cases h1 : x = [] ∨ x = ['.']
      · rw [if_pos h1] at ht
        exact ih acc hacc (fun u hu => hl u (List.mem_cons_of_mem x hu)) t ht
      · rw [if_neg h1] at ht
        by_cases h2 : x = ['.', '.']
        · rw [if_pos h2] at ht
          exact ih acc.dropLast
            (fun u hu => hacc u (List.dropLast_subset _ hu))
            (fun u hu => hl u (List.mem_cons_of_mem x hu)) t ht
        · rw [if_neg h2] at ht
          refine ih (acc ++ [x]) ?_ (fun u hu => hl u (List.mem_cons_of_mem x hu)) t ht
          intro u hu
          rcases List.mem_append.mp hu with hu2 | hu2
          · exact hacc u hu2
          · have hux : u = x := by simpa using hu2
            subst hux
            push_neg at h1
            exact ⟨hl u (List.mem_cons_self u xs), h1.1, h1.2, h2⟩
  exact key segs [] (by simp) (fun t ht => ht) s h

/-- Segments of a normalised path are nonempty and contain no slash. -/
theorem pathSegs_good {p : String} {s : List Char} (h : s ∈ pathSegs p) :
    s ≠ [] ∧ '/' ∉ s := by
  rcases mem_normSegs h with ⟨hmem, hne, _, _⟩
  exact ⟨hne, no_slash_of_mem_splitSegs p.toList s hmem⟩

theorem commonPrefixLen_le_left : ∀ a b : List (List Char), commonPrefixLen a b ≤ a.length := by
  intro a
  induction a with
  | nil => intro b; cases b <;> simp [commonPrefixLen]
  | cons x xs ih =>
    intro b
    cases b with
    | nil => simp [commonPrefixLen]
    | cons y ys =>
      simp only [commonPrefixLen]
      split
      · simpa using ih ys
      · simp

theorem commonPrefixLen_self : ∀ a : List (List Char), commonPrefixLen a a = a.length := by
  intro a
  induction a with
  | nil => simp [commonPrefixLen]
  | cons x xs ih => simp [commonPrefixLen, ih]

theorem commonPrefixLen_eq_length_iff :
    ∀ a b : List (List Char), commonPrefixLen a b = a.length ↔ a.isPrefixOf b := by
  intro a
  induction a with
  | nil => intro b; cases b <;> simp [commonPrefixLen, List.isPrefixOf]
  | cons x xs ih =>
    intro b
    cases b with
    | nil => simp [commonPrefixLen, List.isPrefixOf]
    | cons y ys =>
      simp only [commonPrefixLen, List.isPrefixOf]
      by_cases hxy : x = y
      · simpa [hxy] using ih ys
      · rw [if_neg hxy]
        constructor
        · intro h0; simp at h0
        · intro hb
          simp only [Bool.and_eq_true, beq_iff_eq] at hb
          exact absurd hb.1 hxy

/-- If the first list is a prefix of the second, the common prefix length
is the first list's length. -/
theorem commonPrefixLen_drop_shape (a b : List (List Char)) :
    commonPrefixLen a b = a.length → b.drop a.length = b.drop (commonPrefixLen a b) := by
  intro h; rw [h]

theorem commonPrefixLen_le_right : ∀ a b : List (List Char), commonPrefixLen a b ≤ b.length := by
  intro a
  induction a with
  | nil => intro b; cases b <;> simp [commonPrefixLen]
  | cons x xs ih =>
    intro b
    cases b with
    | nil => simp [commonPrefixLen]
    | cons y ys =>
      simp only [commonPrefixLen]
      split
      · simpa using ih ys
      · simp

theorem splitSegs_of_no_slash : ∀ l : List Char, '/' ∉ l → splitSegs l = [l] := by
  intro l
  induction l with
  | nil => intro _; rfl
  | cons c cs ih =>
    intro h
    have hc : c ≠ '/' := fun hc => h (hc ▸ List.mem_cons_self c cs)
    have hcs : '/' ∉ cs := fun hin => h (List.mem_cons_of_mem c hin)
    simp only [splitSegs, ih hcs]
    simp [hc]

theorem splitSegs_append_of_no_slash :
    ∀ (h l : List Char), '/' ∉ h →
    ∀ s ss, splitSegs l = s :: ss → splitSegs (h ++ l) = (h ++ s) :: ss := by
  intro h
  induction h with
  | nil => intro l _ s ss hl; simpa using hl
  | cons c h' ih =>
    intro l hh s ss hl
    have hc : c ≠ '/' := fun hc => hh (hc ▸ List.mem_cons_self c h')
    have hh' : '/' ∉ h' := fun hin => hh (List.mem_cons_of_mem c hin)
    have hrec := ih l hh' s ss hl
    rw [List.cons_append]
    simp only [splitSegs]
    rw [hrec]
    simp [hc]

theorem splitSegs_slash_cons (l : List Char) : splitSegs ('/' :: l) = [] :: splitSegs l := by
  obtain ⟨s, ss, h⟩ : ∃ s ss, splitSegs l = s :: ss := by
    rcases hne : splitSegs l with _ | ⟨s, ss⟩
    · exact absurd hne (splitSegs_ne_nil l)
    · exact ⟨s, ss, rfl⟩
  simp [splitSegs, h]

theorem splitSegs_intercalate :
    ∀ segs : List (List Char), segs ≠ [] → (∀ s ∈ segs, '/' ∉ s) →
    splitSegs (List.intercalate ['/'] segs) = segs := by
  intro segs
  induction segs with
  | nil => intro h; exact absurd rfl h
  | cons u us ih =>
    intro _ hgood
    cases us with
    | nil =>
      have hone : List.intercalate ['/'] [u] = u := by simp [List.intercalate]
      rw [hone]
      exact splitSegs_of_no_slash u (hgood u (List.mem_cons_self u []))
    | cons v vs =>
      have hstep : List.intercalate ['/'] (u :: v :: vs)
          = u ++ '/' :: List.intercalate ['/'] (v :: vs) := by
        simp only [List.intercalate, List.intersperse]
        simp
      rw [hstep]
      have hrec := ih (by simp) (fun s hs => hgood s (List.mem_cons_of_mem u hs))
      have hu : '/' ∉ u := hgood u (List.mem_cons_self u (v :: vs))
      have hsl := splitSegs_slash_cons (List.intercalate ['/'] (v :: vs))
      rw [hrec] at hsl
      have := splitSegs_append_of_no_slash u ('/' :: List.intercalate ['/'] (v :: vs)) hu
        [] (v :: vs) hsl
      simpa using this

/-- Pattern `normSegs` is the identity on a list of good segments. -/
theorem normSegs_of_good (segs : List (List Char))
    (h : ∀ s ∈ segs, s ≠ [] ∧ s ≠ ['.'] ∧ s ≠ ['.', '.']) : normSegs segs = segs := by
  have key : ∀ (l acc : List (List Char)),
      (∀ s ∈ l, s ≠ [] ∧ s ≠ ['.'] ∧ s ≠ ['.', '.']) →
      l.foldl
        (fun acc seg =>
          if seg = [] ∨ seg = ['.'] then acc
          else if seg = ['.', '.'] then acc.dropLast
          else acc ++ [seg]) acc = acc ++ l := by
    intro l
    induction l with
    | nil => intro acc _; simp
    | cons x xs ih =>
      intro acc hl
      obtain ⟨h1, h2, h3⟩ := hl x (List.mem_cons_self x xs)
      simp only [List.foldl_cons, if_neg (by tauto : ¬(x = [] ∨ x = ['.'])), if_neg h3]
      rw [ih (acc ++ [x]) (fun s hs => hl s (List.mem_cons_of_mem x hs))]
      simp
  simpa using key segs [] h

/-- Resolving a path and re-splitting it recovers the normalised
segments: `pathSegs (nodeResolve p) = pathSegs p`. -/
theorem pathSegs_nodeResolve (p : String) : pathSegs (nodeResolve p) = pathSegs p := by
  show pathSegs (joinAbs (pathSegs p)) = pathSegs p
  have hgood : ∀ s ∈ pathSegs p, s ≠ [] ∧ s ≠ ['.'] ∧ s ≠ ['.', '.'] := by
    intro s hs
    obtain ⟨_, h1, h2, h3⟩ := mem_normSegs hs
    exact ⟨h1, h2, h3⟩
  have hslash : ∀ s ∈ pathSegs p, '/' ∉ s :=
    fun s hs => (pathSegs_good hs).2
  cases hsegs : pathSegs p with
  | nil =>
    show normSegs (splitSegs ('/' :: List.intercalate ['/'] [])) = []
    simp [List.intercalate, splitSegs, normSegs]
  | cons u us =>
    show normSegs (splitSegs ('/' :: List.intercalate ['/'] (u :: us))) = u :: us
    rw [splitSegs_slash_cons,
      splitSegs_intercalate (u :: us) (by simp) (fun s hs => hslash s (hsegs ▸ hs))]
    have : normSegs ([] :: u :: us) = normSegs (u :: us) := by
      simp [normSegs]
    rw [this, normSegs_of_good (u :: us) (fun s hs => hgood s (hsegs ▸ hs))]

theorem dd_isPre_append (h X : List Char)
    (hX : X = [] ∨ ∃ y, X = '/' :: y) :
    ['.', '.'].isPrefixOf (h ++ X) = ['.', '.'].isPrefixOf h := by
  match h with
  | [] =>
    rcases hX with rfl | ⟨y, rfl⟩
    · rfl
    · simp [List.isPrefixOf]
  | [a] =>
    rcases hX with rfl | ⟨y, rfl⟩
    · rfl
    · by_cases ha : a = '.' <;> simp [List.isPrefixOf, ha]
  | a :: b :: h' =>
    simp [List.isPrefixOf]

theorem intercalate_cons_shape (h : List Char) (t : List (List Char)) :
    List.intercalate ['/'] (h :: t) = h ∨
    ∃ rest, List.intercalate ['/'] (h :: t) = h ++ '/' :: rest := by
  cases t with
  | nil => left; simp [List.intercalate]
  | cons u us =>
    right
    refine ⟨List.intercalate ['/'] (u :: us), ?_⟩
    simp only [List.intercalate, List.intersperse]
    simp

theorem strStartsWith_mk_slash_false {a : Char} {b : List Char} (ha : a ≠ '/') :
    strStartsWith ⟨a :: b⟩ "/" = false := by
  show (['/'].isPrefixOf (a :: b)) = false
  simp [List.isPrefixOf]
  exact fun h => ha h.symm

theorem isPathInsideWorkspace_eq_isInsideAmended (p r : String) :
    isPathInsideWorkspace p r = isInsideAmended p r := by
  have h1 := pathSegs_nodeResolve p
  have h2 := pathSegs_nodeResolve r
  simp only [isPathInsideWorkspace, isInsideAmended, nodeRelative, h1, h2]
  by_cases hpre : (pathSegs r).isPrefixOf (pathSegs p) = true
  case pos =>
    have hclen : commonPrefixLen (pathSegs r) (pathSegs p) = (pathSegs r).length :=
      (commonPrefixLen_eq_length_iff _ _).mpr hpre
    rw [hclen]
    cases hdrop : (pathSegs p).drop ((pathSegs r).length) with
    | nil =>
      have hlen : (pathSegs p).length = (pathSegs r).length := by
        have hle := commonPrefixLen_le_right (pathSegs r) (pathSegs p)
        rw [hclen] at hle
        have hle2 := List.drop_eq_nil_iff.mp hdrop
        omega
      have hQ : ((pathSegs p).length == (pathSegs r).length) = true := by simp [hlen]
      rw [Nat.sub_self, List.replicate_zero, List.nil_append]
      have hA : ((⟨List.intercalate ['/'] ([] : List (List Char))⟩ : String) == "") = true := by
        rw [show List.intercalate ['/'] ([] : List (List Char)) = [] from by simp [List.intercalate]]
        rfl
      rw [hA, hpre, hQ]
      simp
    | cons hseg tsegs =>
      have hlen : ((pathSegs p).length == (pathSegs r).length) = false := by
        have hlen2 : (pathSegs p).length - (pathSegs r).length = tsegs.length + 1 := by
          have := congrArg List.length hdrop
          simpa using this
        have hle := commonPrefixLen_le_right (pathSegs r) (pathSegs p)
        rw [hclen] at hle
        simp only [beq_eq_false_iff_ne, ne_eq]
        omega
      have hgood : hseg ≠ [] ∧ '/' ∉ hseg := by
        apply pathSegs_good (p := p)
        have hmem : hseg ∈ (pathSegs p).drop ((pathSegs r).length) := by
          rw [hdrop]; exact List.mem_cons_self _ _
        exact List.mem_of_mem_drop hmem
      obtain ⟨a, b, hab⟩ : ∃ a b, hseg = a :: b := by
        rcases hs : hseg with _ | ⟨a, b⟩
        · exact absurd hs hgood.1
        · exact ⟨a, b, rfl⟩
      have ha : a ≠ '/' := fun h => hgood.2 (by rw [hab, h]; exact List.mem_cons_self _ _)
      rw [Nat.sub_self, List.replicate_zero, List.nil_append]
      rcases intercalate_cons_shape hseg tsegs with hsh | ⟨rest, hsh⟩
      · rw [hsh]
        have hA : ((⟨hseg⟩ : String) == "") = false := by
          simp only [beq_eq_false_iff_ne, ne_eq, String.ext_iff]
          simpa using hgood.1
        have hB : strStartsWith ⟨hseg⟩ ".." = ['.', '.'].isPrefixOf hseg := rfl
        have hC : strStartsWith ⟨hseg⟩ "/" = false := by
          rw [hab]; exact strStartsWith_mk_slash_false ha
        rw [hA, hB, hC, hpre, hlen]
        simp
      · rw [hsh]
        have hA : ((⟨hseg ++ '/' :: rest⟩ : String) == "") = false := by
          simp only [beq_eq_false_iff_ne, ne_eq, String.ext_iff]
          simp
        have hB : strStartsWith ⟨hseg ++ '/' :: rest⟩ ".."
            = ['.', '.'].isPrefixOf (hseg ++ '/' :: rest) := rfl
        have hC : strStartsWith ⟨hseg ++ '/' :: rest⟩ "/" = false := by
          rw [hab]
          exact strStartsWith_mk_slash_false (b := b ++ '/' :: rest) ha
        rw [hA, hB, dd_isPre_append hseg ('/' :: rest) (Or.inr ⟨rest, rfl⟩), hC, hpre, hlen]
        simp
  case neg =>
    have hpre' : (pathSegs r).isPrefixOf (pathSegs p) = false :=
      Bool.eq_false_iff.mpr hpre
    have hclen : commonPrefixLen (pathSegs r) (pathSegs p) ≠ (pathSegs r).length := by
      intro h
      exact hpre ((commonPrefixLen_eq_length_iff _ _).mp h)
    obtain ⟨k, hk⟩ : ∃ k,
        (pathSegs r).length - commonPrefixLen (pathSegs r) (pathSegs p) = k + 1 := by
      have hle := commonPrefixLen_le_left (pathSegs r) (pathSegs p)
      refine ⟨(pathSegs r).length - commonPrefixLen (pathSegs r) (pathSegs p) - 1, ?_⟩
      omega
    rw [hk, List.replicate_succ, List.cons_append]
    rcases intercalate_cons_shape ['.', '.']
        (List.replicate k ['.', '.']
          ++ (pathSegs p).drop (commonPrefixLen (pathSegs r) (pathSegs p)))
      with hsh | ⟨rest, hsh⟩
    · rw [hsh, hpre']
      have hA : ((⟨['.', '.']⟩ : String) == "") = false := rfl
      have hB : strStartsWith ⟨['.', '.']⟩ ".." = true := rfl
      rw [hA, hB]
      simp
    · rw [hsh, hpre']
      have hA : ((⟨['.', '.'] ++ '/' :: rest⟩ : String) == "") = false := rfl
      have hB : strStartsWith ⟨['.', '.'] ++ '/' :: rest⟩ ".." = true := rfl
      rw [hA, hB]
      simp

/-- C1: the source containment check is not exactly "equal or proper
descendant": the normalised path `/workspace/123/..f` is a proper
descendant of `/workspace/123`, yet `isPathInsideWorkspace` rejects it,
because the relative path `..f` merely starts with the two characters
`..`.  This refutes the claimed if-and-only-if at a concrete input. -/
theorem isInside_dotdot_prefix_quirk :
    isPathInsideWorkspace "/workspace/123/..f" "/workspace/123" = false ∧
    isInsideSpec "/workspace/123/..f" "/workspace/123" = true := by
  constructor <;> decide

/-- C1 (amended): for every path `P` and root `R`, `isPathInsideWorkspace`
returns true iff the normalised form of `P` equals the normalised form of
`R` or is a descendant of it whose first segment below `R` does not begin
with two dots; the three boundary examples of the claim
(`/workspace/123/../124`, `/workspace/123` itself, and the
prefix-without-separator `/workspace/1234`) behave as the claim states. -/
theorem isInside_characterization :
    (∀ p r : String, isPathInsideWorkspace p r = isInsideAmended p r) ∧
    isPathInsideWorkspace "/workspace/123/../124" "/workspace/123" = false ∧
    isPathInsideWorkspace "/workspace/123" "/workspace/123" = true ∧
    isPathInsideWorkspace "/workspace/1234" "/workspace/123" = false :=
  ⟨isPathInsideWorkspace_eq_isInsideAmended, by decide, by decide, by decide⟩

/-! ## Workspace isolation lemmas -/

theorem isPathInsideWorkspace_self (s : String) : isPathInsideWorkspace s s = true := by
  rw [isPathInsideWorkspace_eq_isInsideAmended]
  simp [isInsideAmended, List.isPrefixOf_iff_prefix]

theorem strStartsWith_length_le {s pre : String} (h : strStartsWith s pre = true) :
    pre.toList.length ≤ s.toList.length := by
  rw [strStartsWith, List.isPrefixOf_iff_prefix] at h
  exact h.length_le

theorem isPrefixOf_append_same (l a b : List Char) :
    (l ++ a).isPrefixOf (l ++ b) = a.isPrefixOf b := by
  by_cases h : a.isPrefixOf b
  · rw [h]
    rw [List.isPrefixOf_iff_prefix] at h ⊢
    exact (List.prefix_append_right_inj l).mpr h
  · have h' : a.isPrefixOf b = false := Bool.eq_false_iff.mpr h
    rw [h', Bool.eq_false_iff]
    intro hc
    rw [List.isPrefixOf_iff_prefix, List.prefix_append_right_inj] at hc
    exact h (List.isPrefixOf_iff_prefix.mpr hc)

/-- Resolving a caller root `/workspace/<digits>` is the identity. -/
theorem nodeResolve_workspace_digits (u : String) (hne : u.toList ≠ [])
    (hd : ∀ c ∈ u.toList, c.isDigit = true) :
    nodeResolve ("/workspace/" ++ u) = "/workspace/" ++ u := by
  have hnoslash : '/' ∉ u.toList := by
    intro hin
    have := hd '/' hin
    simp at this
  have htl : ("/workspace/" ++ u).toList = '/' :: ("workspace".toList ++ '/' :: u.toList) := rfl
  have hsplit : splitSegs ("/workspace/" ++ u).toList
      = [[], "workspace".toList, u.toList] := by
    rw [htl, splitSegs_slash_cons]
    have h2 : splitSegs ('/' :: u.toList) = [] :: [u.toList] := by
      rw [splitSegs_slash_cons, splitSegs_of_no_slash u.toList hnoslash]
    have h3 := splitSegs_append_of_no_slash "workspace".toList ('/' :: u.toList)
      (by decide) [] [u.toList] h2
    rw [h3]
    simp
  have hu1 : ¬(u.toList = [] ∨ u.toList = ['.']) := by
    rintro (h | h)
    · exact hne h
    · have := hd '.' (by rw [h]; exact List.mem_cons_self _ _)
      simp at this
  have hu2 : u.toList ≠ ['.', '.'] := by
    intro h
    have := hd '.' (by rw [h]; exact List.mem_cons_self _ _)
    simp at this
  show joinAbs (normSegs (splitSegs ("/workspace/" ++ u).toList)) = "/workspace/" ++ u
  rw [hsplit]
  have hnorm : normSegs [[], "workspace".toList, u.toList]
      = ["workspace".toList, u.toList] := by
    have hdropnil : normSegs [[], "workspace".toList, u.toList]
        = normSegs ["workspace".toList, u.toList] := rfl
    rw [hdropnil]
    apply normSegs_of_good
    intro s hs
    rcases List.mem_cons.mp hs with rfl | hs
    · exact ⟨by decide, by decide, by decide⟩
    · have hsu : s = u.toList := by simpa using hs
      subst hsu
      push_neg at hu1
      exact ⟨hu1.1, hu1.2, hu2⟩
  rw [hnorm]
  show (⟨'/' :: List.intercalate ['/'] ["workspace".toList, u.toList]⟩ : String)
      = "/workspace/" ++ u
  have hint : List.intercalate ['/'] ["workspace".toList, u.toList]
      = "workspace".toList ++ '/' :: u.toList := by
    simp only [List.intercalate, List.intersperse]
    simp
  rw [hint]
  apply String.ext
  show '/' :: ("workspace".toList ++ '/' :: u.toList) = ("/workspace/" ++ u).data
  rw [String.data_append]
  rfl

theorem root_ne_ws {u : String} (hne : u.toList ≠ []) :
    (("/workspace/" ++ u : String) == "/workspace") = false
    ∧ (("/workspace/" ++ u : String) == "/workspace/") = false := by
  have h11 : ("/workspace/" : String).data.length = 11 := by decide
  have hlen : ("/workspace/" ++ u).data.length = 11 + u.data.length := by
    rw [String.data_append, List.length_append, h11]
  have hupos : u.data.length ≠ 0 := by
    intro h
    exact hne (List.eq_nil_of_length_eq_zero h)
  constructor <;> rw [beq_eq_false_iff_ne] <;> intro h <;>
    have hl := congrArg (fun s : String => s.data.length) h <;>
    simp only at hl <;> rw [hlen] at hl
  · have h10 : ("/workspace" : String).data.length = 10 := by decide
    rw [h10] at hl
    omega
  · rw [h11] at hl
    omega

theorem root_shared_false {u : String} (hne : u.toList ≠ [])
    (hd : ∀ c ∈ u.toList, c.isDigit = true) :
    strStartsWith ("/workspace/" ++ u) "/workspace/_shared" = false := by
  obtain ⟨c, cs, hu⟩ : ∃ c cs, u.toList = c :: cs := by
    rcases h : u.toList with _ | ⟨c, cs⟩
    · exact absurd h hne
    · exact ⟨c, cs, rfl⟩
  rw [strStartsWith]
  have h1 : "/workspace/_shared".toList = "/workspace/".toList ++ "_shared".toList := rfl
  have h2 : ("/workspace/" ++ u).toList = "/workspace/".toList ++ u.toList := rfl
  rw [h1, h2, isPrefixOf_append_same, hu]
  have hc := hd c (by rw [hu]; exact List.mem_cons_self _ _)
  have hbeq : ('_' == c) = false := by
    rw [beq_eq_false_iff_ne]
    intro h
    rw [← h] at hc
    simp at hc
  have hsh : "_shared".toList = '_' :: "shared".toList := rfl
  rw [hsh]
  simp [List.isPrefixOf, hbeq]

/-- The `/workspace`-substring pass lets the caller's own root through. -/
theorem checkWsPathsLoop_own_root (u : String) (hne : u.toList ≠ [])
    (hd : ∀ c ∈ u.toList, c.isDigit = true) :
    checkWsPathsLoop ["/workspace/" ++ u] ("/workspace/" ++ u) = none := by
  obtain ⟨h1, h2⟩ := root_ne_ws hne
  simp only [checkWsPathsLoop, h1, h2, root_shared_false hne hd,
    isPathInsideWorkspace_self]
  simp

theorem ensureWorkspaceAccess_own_root (u : String) (hne : u.toList ≠ [])
    (hd : ∀ c ∈ u.toList, c.isDigit = true) :
    (ensureWorkspaceAccess ("/workspace/" ++ u) ("/workspace/" ++ u)).allowed = true := by
  simp only [ensureWorkspaceAccess]
  rw [nodeResolve_workspace_digits u hne hd]
  obtain ⟨h1, h2⟩ := root_ne_ws hne
  simp [h1, h2, root_shared_false hne hd, isPathInsideWorkspace_self]

theorem ensureWorkspaceAccess_ws_root (root : String) :
    (ensureWorkspaceAccess "/workspace" root).allowed = false := by
  have h : nodeResolve "/workspace" = "/workspace" := by decide
  simp [ensureWorkspaceAccess, h]

theorem ensureWorkspaceAccess_shared (p root : String)
    (h : strStartsWith (nodeResolve p) "/workspace/_shared" = true) :
    (ensureWorkspaceAccess p root).allowed = false := by
  have hlen := strStartsWith_length_le h
  have h18 : ("/workspace/_shared" : String).toList.length = 18 := by decide
  rw [h18] at hlen
  have hne1 : (nodeResolve p == "/workspace") = false := by
    rw [beq_eq_false_iff_ne]
    intro he
    rw [he] at hlen
    have h10 : ("/workspace" : String).toList.length = 10 := by decide
    rw [h10] at hlen
    omega
  have hne2 : (nodeResolve p == "/workspace/") = false := by
    rw [beq_eq_false_iff_ne]
    intro he
    rw [he] at hlen
    have h11 : ("/workspace/" : String).toList.length = 11 := by decide
    rw [h11] at hlen
    omega
  simp [ensureWorkspaceAccess, hne1, hne2, h]

theorem checkCdTargetsLoop_blocks :
    ∀ (targets : List String) (rws t : String),
      t ∈ targets →
      (t = "" ∨ t = "-" ∨ strStartsWith t "~" = true ∨ containsDynamic t = true ∨
        isPathInsideWorkspace (cdResolveTarget rws t) rws = false) →
      (checkCdTargetsLoop targets rws).isSome = true := by
  intro targets
  induction targets with
  | nil => intro rws t h; simp at h
  | cons t0 rest ih =>
    intro rws t hmem hbad
    rcases List.mem_cons.mp hmem with rfl | hmem
    · simp only [checkCdTargetsLoop]
      by_cases h1 : (t == "") = true
      · simp [h1]
      · by_cases h2 : (t == "-" || strStartsWith t "~") = true
        · simp [h1, h2]
        · by_cases h3 : containsDynamic t = true
          · simp [h1, h2, h3]
          · have h5 : isPathInsideWorkspace (cdResolveTarget rws t) rws = false := by
              rcases hbad with hb | hb | hb | hb | hb
              · exact absurd (by simp [hb]) h1
              · exact absurd (by simp [hb]) h2
              · exact absurd (by simp [hb]) h2
              · exact absurd hb h3
              · exact hb
            simp [h1, h2, h3, h5]
    · simp only [checkCdTargetsLoop]
      by_cases h1 : (t0 == "") = true
      · simp [h1]
      · by_cases h2 : (t0 == "-" || strStartsWith t0 "~") = true
        · simp [h1, h2]
        · by_cases h3 : containsDynamic t0 = true
          · simp [h1, h2, h3]
          · by_cases h4 : isPathInsideWorkspace (cdResolveTarget rws t0) rws = true
            · simp only [h1, h2, h3, h4]
              simp only [Bool.not_true, if_false, if_neg]
              simpa using ih rws t hmem hbad
            · have h4' : isPathInsideWorkspace (cdResolveTarget rws t0) rws = false := by
                rw [Bool.eq_false_iff]; exact h4
              simp [h1, h2, h3, h4']

theorem checkWsPathsLoop_blocks :
    ∀ (paths : List String) (rws p : String),
      p ∈ paths →
      (p = "/workspace" ∨ strStartsWith p "/workspace/_shared" = true) →
      (checkWsPathsLoop paths rws).isSome = true := by
  intro paths
  induction paths with
  | nil => intro rws p h; simp at h
  | cons p0 rest ih =>
    intro rws p hmem hbad
    rcases List.mem_cons.mp hmem with rfl | hmem
    · simp only [checkWsPathsLoop]
      by_cases h1 : (p == "/workspace" || p == "/workspace/") = true
      · simp [h1]
      · have h2 : strStartsWith p "/workspace/_shared" = true := by
          rcases hbad with hb | hb
          · exact absurd (by simp [hb]) h1
          · exact hb
        simp [h1, h2]
    · simp only [checkWsPathsLoop]
      by_cases h1 : (p0 == "/workspace" || p0 == "/workspace/") = true
      · simp [h1]
      · by_cases h2 : strStartsWith p0 "/workspace/_shared" = true
        · simp [h1, h2]
        · by_cases h3 : isPathInsideWorkspace p0 rws = true
          · simp only [h1, h2, h3]
            simp only [Bool.not_true, if_false, if_neg]
            simpa using ih rws p hmem hbad
          · have h3' : isPathInsideWorkspace p0 rws = false := by
              rw [Bool.eq_false_iff]; exact h3
            simp [h1, h2, h3']

/-- C9: when the working directory does not contain a `/workspace/<digits>`
match, `checkWorkspaceIsolation` returns not-blocked for every command,
skipping the Docker-secrets, `cd`-target, parent-traversal and
`/workspace`-substring checks entirely. -/
theorem non_workspace_cwd_skips_isolation (command userWorkspace : String)
    (h : matchWsUser userWorkspace.toList = none) :
    checkWorkspaceIsolation command userWorkspace = ⟨false, none⟩ := by
  have h2 : matchWsUser userWorkspace.data = none := h
  simp [checkWorkspaceIsolation, h2]

/-- C9 witness: a working directory of `/tmp` lets even a command that
reads Docker secrets, escapes via `cd ..` and touches `/workspace/_shared`
through unchecked. -/
theorem non_workspace_cwd_skips_isolation_witness :
    checkWorkspaceIsolation "cat /run/secrets/telegram_token && cd .. && ls /workspace/_shared"
      "/tmp" = ⟨false, none⟩ :=
  non_workspace_cwd_skips_isolation _ _ (by decide)

/-- C3 counterexample: `if true; then cd /etc; fi` contains a `cd`
whose target `/etc` is outside the caller's workspace, but the
extraction regex only matches a `cd` at the start of the command or
preceded (up to whitespace) by `;`, a newline, `&&`, `||`, `|`, `&`,
`(` or `)` — here the word `then` stands directly before the `cd` — so
no target is extracted and the command is not blocked, while the bare
`cd /etc` is. -/
theorem cd_inside_compound_not_blocked :
    hasSub "cd /etc".toList ("if true; then cd /etc; fi").toList = true ∧
    extractCdTargets "if true; then cd /etc; fi" = [] ∧
    checkWorkspaceIsolation "if true; then cd /etc; fi" "/workspace/123" = ⟨false, none⟩ ∧
    (checkWorkspaceIsolation "cd /etc" "/workspace/123").blocked = true := by
  refine ⟨by decide, by decide, by decide, by decide⟩

/-- C3 (amended): for a caller in a numeric workspace, any `cd` target
the extraction regex finds — a `cd` at the start of the command or
preceded, up to whitespace, by `;`, a newline, `&&`, `||`, `|`, `&`,
`(` or `)` — that is absent, `-`, home-relative, dynamically computed
(backtick or dollar), or resolving outside the workspace makes
`checkWorkspaceIsolation` report the command blocked; a `cd` with no
such separator before it is not extracted and, absent other triggers,
does not block. -/
theorem cd_target_gating_blocks (command userWorkspace t : String)
    (hws : (matchWsUser userWorkspace.toList).isSome = true)
    (hmem : t ∈ extractCdTargets command)
    (hbad : t = "" ∨ t = "-" ∨ strStartsWith t "~" = true ∨ containsDynamic t = true ∨
      isPathInsideWorkspace (cdResolveTarget (nodeResolve userWorkspace) t)
        (nodeResolve userWorkspace) = false) :
    (checkWorkspaceIsolation command userWorkspace).blocked = true := by
  obtain ⟨uid, hu⟩ := Option.isSome_iff_exists.mp hws
  have hu2 : matchWsUser userWorkspace.data = some uid := hu
  simp only [checkWorkspaceIsolation]
  split
  · next heq => rw [hu] at heq; simp at heq
  · next val heq =>
      by_cases hsec : testRunSecrets command.data = true
      · simp [hsec]
      · have hl := checkCdTargetsLoop_blocks (extractCdTargets command)
          (nodeResolve userWorkspace) t hmem hbad
        obtain ⟨r, hr⟩ := Option.isSome_iff_exists.mp hl
        simp [hsec, hr]

/-- C3 witness: `cd $(pwd)` is extracted as the dynamic target `$` and
the command is blocked for a caller at `/workspace/123`. -/
theorem cd_target_gating_blocks_witness :
    (checkWorkspaceIsolation "cd $(pwd) && ls" "/workspace/123").blocked = true :=
  cd_target_gating_blocks _ _ "$" (by decide) (by decide)
    (Or.inr (Or.inr (Or.inr (Or.inl (by decide)))))

/-- C2: the workspace policy denies the bare `/workspace` root and the
`/workspace/_shared` subtree for every caller root, both for file
operations (`ensureWorkspaceAccess`) and for the `/workspace`-substring
pass of `checkWorkspaceIsolation`, while the caller's own numeric root
is allowed by both. -/
theorem workspace_policy_root_shared :
    (∀ root : String, (ensureWorkspaceAccess "/workspace" root).allowed = false) ∧
    (∀ p root : String, strStartsWith (nodeResolve p) "/workspace/_shared" = true →
      (ensureWorkspaceAccess p root).allowed = false) ∧
    (∀ u : String, u.toList ≠ [] → (∀ c ∈ u.toList, c.isDigit = true) →
      (ensureWorkspaceAccess ("/workspace/" ++ u) ("/workspace/" ++ u)).allowed = true) ∧
    (∀ command userWorkspace p : String,
      (matchWsUser userWorkspace.toList).isSome = true →
      p ∈ extractWorkspacePaths command →
      (p = "/workspace" ∨ strStartsWith p "/workspace/_shared" = true) →
      (checkWorkspaceIsolation command userWorkspace).blocked = true) ∧
    (∀ u : String, u.toList ≠ [] → (∀ c ∈ u.toList, c.isDigit = true) →
      checkWsPathsLoop ["/workspace/" ++ u] ("/workspace/" ++ u) = none) ∧
    checkWorkspaceIsolation "ls /workspace/123" "/workspace/123" = ⟨false, none⟩ := by
  refine ⟨ensureWorkspaceAccess_ws_root, ensureWorkspaceAccess_shared,
    ensureWorkspaceAccess_own_root, ?_, checkWsPathsLoop_own_root, by decide⟩
  intro command userWorkspace p hws hmem hbad
  obtain ⟨uid, hu⟩ := Option.isSome_iff_exists.mp hws
  have hu2 : matchWsUser userWorkspace.data = some uid := hu
  simp only [checkWorkspaceIsolation]
  split
  · next heq => rw [hu] at heq; simp at heq
  · next val heq =>
      by_cases hsec : testRunSecrets command.data = true
      · simp [hsec]
      · cases hcd : checkCdTargetsLoop (extractCdTargets command) (nodeResolve userWorkspace) with
        | some r => simp [hsec, hcd]
        | none =>
          by_cases htr : testParentTraversal command.data = true ∨ testCdDotDot command.data = true
          · simp [hsec, hcd, htr]
          · have hl := checkWsPathsLoop_blocks (extractWorkspacePaths command)
              (nodeResolve userWorkspace) p hmem hbad
            obtain ⟨r, hr⟩ := Option.isSome_iff_exists.mp hl
            simp [hsec, hcd, htr, hr]

/-- C2 witness: concrete instances for a caller at `/workspace/123`. -/
theorem workspace_policy_root_shared_witness :
    (ensureWorkspaceAccess "/workspace" "/workspace/123").allowed = false ∧
    (ensureWorkspaceAccess "/workspace/_shared/data" "/workspace/123").allowed = false ∧
    (ensureWorkspaceAccess ("/workspace/" ++ "123") ("/workspace/" ++ "123")).allowed = true ∧
    (checkWorkspaceIsolation "ls /workspace/_shared" "/workspace/123").blocked = true :=
  ⟨workspace_policy_root_shared.1 "/workspace/123",
   workspace_policy_root_shared.2.1 "/workspace/_shared/data" "/workspace/123" (by decide),
   workspace_policy_root_shared.2.2.1 "123" (by decide) (by decide),
   workspace_policy_root_shared.2.2.2.1 "ls /workspace/_shared" "/workspace/123"
     "/workspace/_shared" (by decide) (by decide) (Or.inr (by decide))⟩

/-! ## Approval workflow theorems -/

/-- C4: resolution is at-most-once: a second `resolvePending` with the
same id always reports not-found and leaves the store exactly as the
first resolution left it, and no entry under the resolved id survives a
resolution. -/
theorem resolvePending_at_most_once :
    (∀ (st : PendingStore) (id : String),
      resolvePending (resolvePending st id).2 id = (none, (resolvePending st id).2)) ∧
    (∀ (st : PendingStore) (id : String) (x : String × PendingCommand),
      x ∈ (resolvePending st id).2.entries → (x.1 == id) = false) := by
  constructor
  · intro st id
    cases hfind : st.entries.find? (fun e => e.1 == id) with
    | none =>
      simp [resolvePending, hfind]
    | some e =>
      simp only [resolvePending, hfind]
      have hnone : (st.entries.filter (fun e => !(e.1 == id))).find?
          (fun e => e.1 == id) = none := by
        rw [List.find?_eq_none]
        intro x hx
        have hmem := List.of_mem_filter hx
        simp at hmem ⊢
        exact hmem
      simp [hnone]
  · intro st id x hx
    cases hfind : st.entries.find? (fun e => e.1 == id) with
    | none =>
      simp only [resolvePending, hfind] at hx
      have := List.find?_eq_none.mp hfind x hx
      simpa using this
    | some e =>
      simp only [resolvePending, hfind] at hx
      have hmem := List.of_mem_filter hx
      simpa using hmem

/-- C4 witness: with two stored commands, resolving `cmd_0` removes only
that entry; re-resolving it reports not-found with no further change,
and the surviving entry has a different id. -/
theorem resolvePending_at_most_once_witness :
    (resolvePending
        (resolvePending ⟨2, [("cmd_0", ⟨"cmd_0", "s", 1, "rm -rf /", "/workspace/123", "r"⟩),
          ("cmd_1", ⟨"cmd_1", "s", 1, "sudo ls", "/workspace/123", "r"⟩)]⟩ "cmd_0").2
        "cmd_0"
      = (none,
        (resolvePending ⟨2, [("cmd_0", ⟨"cmd_0", "s", 1, "rm -rf /", "/workspace/123", "r"⟩),
          ("cmd_1", ⟨"cmd_1", "s", 1, "sudo ls", "/workspace/123", "r"⟩)]⟩ "cmd_0").2)) ∧
    ((("cmd_1", ⟨"cmd_1", "s", 1, "sudo ls", "/workspace/123", "r"⟩) : String × PendingCommand).1
      == "cmd_0") = false :=
  ⟨resolvePending_at_most_once.1 _ "cmd_0",
   resolvePending_at_most_once.2
     ⟨2, [("cmd_0", ⟨"cmd_0", "s", 1, "rm -rf /", "/workspace/123", "r"⟩),
       ("cmd_1", ⟨"cmd_1", "s", 1, "sudo ls", "/workspace/123", "r"⟩)]⟩ "cmd_0"
     ("cmd_1", ⟨"cmd_1", "s", 1, "sudo ls", "/workspace/123", "r"⟩) (by decide)⟩

/-! ## Sanitiser lemmas and theorems -/

theorem takeWhile_length_le (p : Char → Bool) :
    ∀ l : List Char, (l.takeWhile p).length ≤ l.length := by
  intro l
  induction l with
  | nil => simp
  | cons c cs ih =>
    rw [List.takeWhile_cons]
    by_cases h : p c = true
    · rw [if_pos h]
      simpa using ih
    · rw [if_neg h]
      simp

theorem base64Scan_short :
    ∀ (fuel : Nat) (cs : List Char), cs.length < 100 → base64Scan fuel cs = [] := by
  intro fuel
  induction fuel with
  | zero => intro cs _; rfl
  | succ fuel ih =>
    intro cs hlen
    match cs with
    | [] => rfl
    | c :: rest =>
      simp only [base64Scan]
      have hrun : ((c :: rest).takeWhile isB64Char).length ≤ (c :: rest).length :=
        takeWhile_length_le _ _
      rw [if_neg (by omega)]
      by_cases hz : ((c :: rest).takeWhile isB64Char).length = 0
      · rw [if_pos hz]
        apply ih
        have hc : (c :: rest).length = rest.length + 1 := rfl
        omega
      · rw [if_neg hz]
        apply ih
        have := List.length_drop ((c :: rest).takeWhile isB64Char).length (c :: rest)
        omega

/-- C5 counterexample: `VEVMRUdSQU1fVE9LRU49eA==` is the base64 encoding
of `TELEGRAM_TOKEN=x`, yet `sanitizeOutput` returns it untouched (the
run is shorter than the 100-character threshold), not the block
marker. -/
theorem short_base64_secret_not_blocked :
    bytesHasSub (asciiOf "TELEGRAM_TOKEN")
      (nodeB64Decode "VEVMRUdSQU1fVE9LRU49eA==".toList) = true ∧
    sanitizeOutput "VEVMRUdSQU1fVE9LRU49eA==" = "VEVMRUdSQU1fVE9LRU49eA==" := by
  constructor <;> decide

/-- C5 (amended): whenever the output contains a base64-looking run of
at least 100 characters whose decoding contains a secret indicator,
`sanitizeOutput` discards everything and returns exactly the fixed
blocked-output marker. -/
theorem encoded_secret_output_blocked (output : String) (m : List Char)
    (hmem : m ∈ base64Matches output)
    (hind : hasSecretIndicator (nodeB64Decode m) = true) :
    sanitizeOutput output = "🚫 [OUTPUT BLOCKED: Contains encoded sensitive data]" := by
  have henc : containsEncodedSecrets output = true := by
    rw [containsEncodedSecrets, List.any_eq_true]
    exact ⟨m, hmem, hind⟩
  simp [sanitizeOutput, henc]

/-- C5 witness: a 104-character base64 encoding of a Telegram-token
dump is fully blocked. -/
theorem encoded_secret_output_blocked_witness :
    sanitizeOutput
      "VEVMRUdSQU1fVE9LRU49MTIzNDU2Nzg5MDpBQXh4eHh4eHh4eHh4eHh4eHh4eHh4eHh4eHh4eHh4eHh4eHh4eHh4eHh4eHh4eHh4eHh4"
      = "🚫 [OUTPUT BLOCKED: Contains encoded sensitive data]" :=
  encoded_secret_output_blocked _
    "VEVMRUdSQU1fVE9LRU49MTIzNDU2Nzg5MDpBQXh4eHh4eHh4eHh4eHh4eHh4eHh4eHh4eHh4eHh4eHh4eHh4eHh4eHh4eHh4eHh4eHh4".toList
    (by decide) (by decide)

/-- C6 counterexample: six plain `VAR=value` lines with no sensitive key
name anywhere are fully suppressed by the shell-style branch. -/
theorem shell_env_dump_blocked_without_sensitive_key :
    containsSuspiciousEnvDump "AAA=1\nBBB=2\nCCC=3\nDDD=4\nEEE=5\nFFF=6" = true ∧
    hasJsonSensitiveKey "AAA=1\nBBB=2\nCCC=3\nDDD=4\nEEE=5\nFFF=6" = false ∧
    (["API_KEY", "TOKEN", "SECRET", "PASSWORD", "TELEGRAM", "ZAI_", "BASE_URL",
        "MCP_", "WORKSPACE", "HOME", "PATH"].all
      (fun k => !(strContains "AAA=1\nBBB=2\nCCC=3\nDDD=4\nEEE=5\nFFF=6" k))) = true ∧
    sanitizeOutput "AAA=1\nBBB=2\nCCC=3\nDDD=4\nEEE=5\nFFF=6"
      = "🚫 [OUTPUT BLOCKED: Looks like environment dump]" := by
  refine ⟨by decide, by decide, by decide, by decide⟩

/-- C6 (amended): the env-dump suppression fires iff the JSON signature
(more than 5 uppercase JSON keys AND a sensitive key name) holds or the
shell signature (more than 5 `VAR=value` lines) holds — the shell
branch requires no sensitive key name; and whenever it fires on an
output that is not base64-blocked, the whole output is replaced by the
env-dump marker. -/
theorem env_dump_suppression_characterization :
    (∀ output : String,
      containsSuspiciousEnvDump output
        = ((decide (countJsonKeys output > 5) && hasJsonSensitiveKey output)
            || decide (countShellEnvLines output > 5))) ∧
    (∀ output : String, containsEncodedSecrets output = false →
      containsSuspiciousEnvDump output = true →
      sanitizeOutput output = "🚫 [OUTPUT BLOCKED: Looks like environment dump]") := by
  constructor
  · intro output
    by_cases h1 : countJsonKeys output > 5
    · by_cases h2 : hasJsonSensitiveKey output = true
      · simp [containsSuspiciousEnvDump, h1, h2]
      · have h2' : hasJsonSensitiveKey output = false := Bool.eq_false_iff.mpr h2
        by_cases h3 : countShellEnvLines output > 5
        · simp [containsSuspiciousEnvDump, h1, h2', h3]
        · simp [containsSuspiciousEnvDump, h1, h2', h3]
    · by_cases h3 : countShellEnvLines output > 5
      · simp [containsSuspiciousEnvDump, h1, h3]
      · simp [containsSuspiciousEnvDump, h1, h3]
  · intro output henc hdump
    simp [sanitizeOutput, henc, hdump]

/-- C6 witness: the characterization applied to the six-line shell dump
and to a JSON dump lacking a sensitive key (not suppressed). -/
theorem env_dump_suppression_characterization_witness :
    containsSuspiciousEnvDump "AAA=1\nBBB=2\nCCC=3\nDDD=4\nEEE=5\nFFF=6"
      = ((decide (countJsonKeys "AAA=1\nBBB=2\nCCC=3\nDDD=4\nEEE=5\nFFF=6" > 5)
          && hasJsonSensitiveKey "AAA=1\nBBB=2\nCCC=3\nDDD=4\nEEE=5\nFFF=6")
        || decide (countShellEnvLines "AAA=1\nBBB=2\nCCC=3\nDDD=4\nEEE=5\nFFF=6" > 5)) ∧
    sanitizeOutput "AAA=1\nBBB=2\nCCC=3\nDDD=4\nEEE=5\nFFF=6"
      = "🚫 [OUTPUT BLOCKED: Looks like environment dump]" :=
  ⟨env_dump_suppression_characterization.1 _,
   env_dump_suppression_characterization.2 "AAA=1\nBBB=2\nCCC=3\nDDD=4\nEEE=5\nFFF=6"
     (by decide) (by decide)⟩

theorem takeWhile_append_all (p : Char → Bool) (l1 l2 : List Char)
    (h : ∀ a ∈ l1, p a = true) : (l1 ++ l2).takeWhile p = l1 ++ l2.takeWhile p := by
  induction l1 with
  | nil => simp
  | cons c cs ih =>
    have hc := h c (List.mem_cons_self c cs)
    rw [List.cons_append, List.takeWhile_cons, hc]
    simp [ih (fun a ha => h a (List.mem_cons_of_mem c ha))]

theorem takeWhile_all (p : Char → Bool) (l : List Char)
    (h : ∀ a ∈ l, p a = true) : l.takeWhile p = l := by
  have h2 := takeWhile_append_all p l [] h
  simpa using h2

theorem replaceScan_nil (m : Matcher) (fuel : Nat) (prev : Option Char) :
    replaceScan m fuel prev [] = [] := by
  cases fuel <;> rfl

theorem countScan_jsonKeyAt_zero :
    ∀ (fuel : Nat) (cs : List Char), (∀ c ∈ cs, ¬ c = '"') →
      countScan jsonKeyAt fuel cs = 0 := by
  intro fuel
  induction fuel with
  | zero => intro cs _; rfl
  | succ fuel ih =>
    intro cs h
    match cs with
    | [] => rfl
    | c :: rest =>
      have hc : ¬ c = '"' := h c (List.mem_cons_self c rest)
      simp only [countScan, jsonKeyAt, if_neg hc]
      exact ih rest (fun a ha => h a (List.mem_cons_of_mem c ha))

theorem splitNl_ne_nil (cs : List Char) : splitNl cs ≠ [] := by
  cases cs with
  | nil => simp [splitNl]
  | cons c cs =>
    simp only [splitNl]
    rcases h : splitNl cs with _ | ⟨s, ss⟩
    · simp
    · by_cases hc : c = '\n' <;> simp [hc]

theorem splitNl_no_newline : ∀ l : List Char, '\n' ∉ l → splitNl l = [l] := by
  intro l
  induction l with
  | nil => intro _; rfl
  | cons c cs ih =>
    intro h
    have hc : c ≠ '\n' := fun hc => h (hc ▸ List.mem_cons_self c cs)
    have hcs : '\n' ∉ cs := fun hin => h (List.mem_cons_of_mem c hin)
    simp only [splitNl, ih hcs]
    simp [hc]

theorem kvTryKeywords_head (kw : List Char) (kws : List (List Char)) (plen : Nat)
    (cs : List Char) (h : ciIsPre kw (cs.drop plen) = true) (n : Nat)
    (h2 : kvAfterKeyword (plen + kw.length) cs = some n) :
    kvTryKeywords (kw :: kws) plen cs = some n := by
  simp only [kvTryKeywords, h, if_true, h2]
  rfl

/-- C7 (amended): on an output of the exact shape `API_KEY=<value>`
with a nonempty plain lowercase-alphanumeric value short enough not to
trip the bulk heuristics, the sanitiser replaces the match keeping the
key and masking the value: the result is exactly `API_KEY=[REDACTED]`
(so it contains `API_KEY=[REDACTED]` and not the value).  In general an
output containing `API_KEY=<value>` can instead lose the key when an
earlier `KEY=value` match swallows it, or be fully suppressed by the
bulk heuristics. -/
theorem api_key_value_redaction (v : String)
    (hne : v.toList ≠ [])
    (hchars : ∀ c ∈ v.toList, ('a' ≤ c ∧ c ≤ 'z') ∨ c.isDigit = true)
    (hlen : v.toList.length ≤ 91) :
    sanitizeOutput ("API_KEY=" ++ v) = "API_KEY=[REDACTED]" := by
  have hL : ("API_KEY=" ++ v).toList
      = 'A' :: 'P' :: 'I' :: '_' :: 'K' :: 'E' :: 'Y' :: '=' :: v.toList := rfl
  have hLlen : ("API_KEY=" ++ v).toList.length = 8 + v.toList.length := by
    rw [hL]; simp only [List.length_cons]; omega
  have hA : containsEncodedSecrets ("API_KEY=" ++ v) = false := by
    rw [containsEncodedSecrets, base64Matches, base64Scan_short _ _ (by omega)]
    rfl
  have hvq : ∀ c ∈ v.toList, ¬ c = '"' := by
    intro c hc heq
    rcases hchars c hc with ⟨h1, h2⟩ | h
    · rw [heq] at h1; exact absurd h1 (by decide)
    · rw [heq] at h; exact absurd h (by decide)
  have hvn : ∀ c ∈ v.toList, ¬ c = '\n' := by
    intro c hc heq
    rcases hchars c hc with ⟨h1, h2⟩ | h
    · rw [heq] at h1; exact absurd h1 (by decide)
    · rw [heq] at h; exact absurd h (by decide)
  have hvs : ∀ c ∈ v.toList, (!(jsSpace c)) = true := by
    intro c hc
    simp only [Bool.not_eq_true']
    simp only [jsSpace, decide_eq_false_iff_not]
    push_neg
    rcases hchars c hc with ⟨h1, h2⟩ | h
    · refine ⟨?_, ?_, ?_, ?_, ?_, ?_⟩ <;> intro hx <;> rw [hx] at h1 <;>
        exact absurd h1 (by decide)
    · refine ⟨?_, ?_, ?_, ?_, ?_, ?_⟩ <;> intro hx <;> rw [hx] at h <;>
        exact absurd h (by decide)
  have hjson : countJsonKeys ("API_KEY=" ++ v) = 0 := by
    rw [countJsonKeys]
    apply countScan_jsonKeyAt_zero
    rw [hL]
    intro c hc
    simp only [List.mem_cons] at hc
    rcases hc with rfl | rfl | rfl | rfl | rfl | rfl | rfl | rfl | hc
    · decide
    · decide
    · decide
    · decide
    · decide
    · decide
    · decide
    · decide
    · exact hvq c hc
  have hshell : countShellEnvLines ("API_KEY=" ++ v) ≤ 1 := by
    rw [countShellEnvLines, splitNl_no_newline]
    · have hfl := List.length_filter_le shellEnvLine [("API_KEY=" ++ v).toList]
      simpa using hfl
    · rw [hL]
      intro hmem
      simp only [List.mem_cons] at hmem
      rcases hmem with h | h | h | h | h | h | h | h | h
      · exact absurd h (by decide)
      · exact absurd h (by decide)
      · exact absurd h (by decide)
      · exact absurd h (by decide)
      · exact absurd h (by decide)
      · exact absurd h (by decide)
      · exact absurd h (by decide)
      · exact absurd h (by decide)
      · exact hvn '\n' h rfl
  have hB : containsSuspiciousEnvDump ("API_KEY=" ++ v) = false := by
    rw [containsSuspiciousEnvDump, hjson]
    rw [if_neg (by omega)]
    exact decide_eq_false (by omega)
  have hrun : ("API_KEY=" ++ v).toList.takeWhile isWordChar = "API_KEY".toList := by
    have hsplit : ("API_KEY=" ++ v).toList = "API_KEY".toList ++ ('=' :: v.toList) := rfl
    rw [hsplit, takeWhile_append_all _ _ _ (by decide)]
    rw [List.takeWhile_cons, show isWordChar '=' = false from by decide]
    simp
  have hafter : kvAfterKeyword 7 ("API_KEY=" ++ v).toList = some (8 + v.toList.length) := by
    have hd7 : ("API_KEY=" ++ v).toList.drop 7 = '=' :: v.toList := by rw [hL]; rfl
    simp only [kvAfterKeyword, hd7]
    rw [List.takeWhile_cons, show isWordChar '=' = false from by decide]
    simp only [Bool.false_eq_true, if_false, List.length_nil, List.drop_zero]
    rw [takeWhile_all _ _ hvs]
    have hvE : v.toList.isEmpty = false := by
      rw [Bool.eq_false_iff]
      intro h
      exact hne (List.isEmpty_iff.mp h)
    rw [hvE]
    simp only [Bool.false_eq_true, if_false, Option.some.injEq]
  have hkv : kvMatcher none ("API_KEY=" ++ v).toList = some (8 + v.toList.length) := by
    show kvTryPlens (("API_KEY=" ++ v).toList.takeWhile isWordChar).length
      ("API_KEY=" ++ v).toList = _
    rw [hrun]
    show kvTryPlens 7 ("API_KEY=" ++ v).toList = _
    have hred : kvTryPlens 7 ("API_KEY=" ++ v).toList
        = kvTryKeywords kvKeywords 0 ("API_KEY=" ++ v).toList := by
      rw [hL]
      exact rfl
    rw [hred]
    rw [show kvKeywords = "api_key".toList ::
      ["api-key".toList, "apikey".toList, "apikey".toList, "token".toList,
        "secret".toList, "password".toList, "pass".toList, "credential".toList,
        "auth".toList] from rfl]
    apply kvTryKeywords_head
    · rw [hL]
      exact rfl
    · exact hafter
  have hpass1 : replaceScan kvMatcher (("API_KEY=" ++ v).toList.length + 1) none
      ("API_KEY=" ++ v).toList = "API_KEY=[REDACTED]".toList := by
    rw [hLlen, hL]
    have hkv' := hkv
    rw [hL] at hkv'
    simp only [replaceScan]
    split
    · next n heq =>
      rw [hkv'] at heq
      have hn : n = 8 + v.toList.length := by
        exact (Option.some.inj heq).symm
      subst hn
      rw [if_neg (by omega)]
      have hfull : ('A' :: 'P' :: 'I' :: '_' :: 'K' :: 'E' :: 'Y' :: '=' :: v.toList).length
          = 8 + v.toList.length := by
        simp only [List.length_cons]; omega
      rw [show (8 + v.toList.length)
          = ('A' :: 'P' :: 'I' :: '_' :: 'K' :: 'E' :: 'Y' :: '=' :: v.toList).length
          from hfull.symm]
      rw [List.take_length, List.drop_length]
      rw [replaceScan_nil, List.append_nil]
      have hany : (('A' :: 'P' :: 'I' :: '_' :: 'K' :: 'E' :: 'Y' :: '=' :: v.toList).any
          (fun c => c = '=')) = true := rfl
      have htw : (('A' :: 'P' :: 'I' :: '_' :: 'K' :: 'E' :: 'Y' :: '=' :: v.toList).takeWhile
          (fun c => !(c = '='))) = "API_KEY".toList := rfl
      rw [redactMatch, hany, if_pos rfl, htw]
      rfl
    · next heq =>
      rw [hkv'] at heq
      cases heq
  have happly : applyRedaction ("API_KEY=" ++ v).toList = "API_KEY=[REDACTED]".toList := by
    rw [applyRedaction]
    rw [show SECRET_PATTERNS = kvMatcher ::
      [skMatcher, tvlyMatcher, zaiMatcher, ghpMatcher, ghoMatcher, ghPatMatcher,
        slackMatcher, tgWordMatcher, bearerMatcher, basicMatcher, akiaMatcher,
        awsSecretMatcher, pemMatcher, envNameMatcher, ipUrlMatcher, tgTokenMatcher] from rfl]
    rw [List.foldl_cons]
    rw [hpass1]
    decide
  rw [sanitizeOutput, hA, hB]
  simp only [Bool.false_eq_true, if_false]
  rw [happly]
  exact String.ext rfl

/-- C7 counterexample: in `TOKEN=API_KEY=abcdef123456` the greedy value
of the leading `TOKEN=` match swallows the `API_KEY=` pair, so the
sanitised result does not contain `API_KEY=[REDACTED]`, refuting the
claim for general outputs containing `API_KEY=abcdef123456`. -/
theorem key_value_match_swallowed :
    strContains "TOKEN=API_KEY=abcdef123456" "API_KEY=abcdef123456" = true ∧
    sanitizeOutput "TOKEN=API_KEY=abcdef123456" = "TOKEN=[REDACTED]" ∧
    strContains (sanitizeOutput "TOKEN=API_KEY=abcdef123456") "API_KEY=[REDACTED]" = false := by
  refine ⟨by decide, by decide, by decide⟩

/-- C7 witness: the claim's own example value. -/
theorem api_key_value_redaction_witness :
    sanitizeOutput ("API_KEY=" ++ "abcdef123456") = "API_KEY=[REDACTED]" :=
  api_key_value_redaction "abcdef123456" (by decide) (by decide) (by decide)

/-! ## Structural lemmas for the filesystem model -/

theorem isPathInsideWorkspace_resolve (p w : String) :
    isPathInsideWorkspace (nodeResolve p) (nodeResolve w) = isPathInsideWorkspace p w := by
  rw [isPathInsideWorkspace_eq_isInsideAmended, isPathInsideWorkspace_eq_isInsideAmended]
  simp only [isInsideAmended, pathSegs_nodeResolve]

theorem ensure_allowed_inside (p w : String)
    (h : (ensureWorkspaceAccess p w).allowed = true) :
    isPathInsideWorkspace p w = true := by
  rw [← isPathInsideWorkspace_resolve]
  simp only [ensureWorkspaceAccess] at h
  by_cases hin : isPathInsideWorkspace (nodeResolve p) (nodeResolve w) = true
  · exact hin
  · exfalso
    simp only [Bool.not_eq_true] at hin
    rw [hin] at h
    simp only [apply_ite AccessResult.allowed] at h
    simp at h

theorem realpathFs_of_not_symlink (σ : FileSys) (p : String)
    (h : ∀ t, σ.lookup p ≠ some (.symlink t)) : realpathFs σ p = p := by
  unfold realpathFs
  split
  · next x heq => exact absurd heq (h x)
  · rfl

theorem symlink_escape_clean (σ : FileSys) (rp cwd : String)
    (hin : isPathInsideWorkspace rp cwd = true)
    (h3 : ∀ t, σ.lookup rp ≠ some (.symlink t))
    (h4 : ∀ t, σ.lookup cwd ≠ some (.symlink t)) :
    (isSymlinkEscape σ rp cwd).1 = false := by
  simp only [isSymlinkEscape]
  rw [realpathFs_of_not_symlink σ rp h3, realpathFs_of_not_symlink σ cwd h4]
  by_cases hex : existsFs σ rp = true
  · rw [hex, hin]
    simp only [Bool.not_true, Bool.false_eq_true, if_false]
  · simp only [Bool.not_eq_true] at hex
    rw [hex]
    rfl

theorem find?_append_cases {α : Type} (p : α → Bool) (l1 l2 : List α) :
    (l1 ++ l2).find? p = (match l1.find? p with
      | some a => some a
      | none => l2.find? p) := by
  induction l1 with
  | nil => rfl
  | cons a l ih =>
    by_cases ha : p a <;> simp [List.find?, ha, ih]

theorem find?_filter_self (l : List (String × FsEntry)) (t : String) :
    (l.filter (fun e => !(e.1 == t))).find? (fun e => e.1 == t) = none := by
  rw [List.find?_eq_none]
  intro e he
  have hm := List.mem_filter.mp he
  simpa using hm.2

theorem find?_filter_ne (l : List (String × FsEntry)) (t k : String) (hne : k ≠ t) :
    (l.filter (fun e => !(e.1 == t))).find? (fun e => e.1 == k)
      = l.find? (fun e => e.1 == k) := by
  have htk : (t == k) = false := beq_eq_false_iff_ne.mpr (fun hh => hne hh.symm)
  induction l with
  | nil => rfl
  | cons e l ih =>
    by_cases he : e.1 = t
    · have h1 : (e.1 == t) = true := beq_iff_eq.mpr he
      have h2 : (e.1 == k) = false := by rw [he]; exact htk
      simp [List.filter, List.find?, h1, h2, ih]
    · have h1 : (e.1 == t) = false := beq_eq_false_iff_ne.mpr he
      by_cases hk : e.1 = k
      · have h2 : (e.1 == k) = true := beq_iff_eq.mpr hk
        simp [List.filter, List.find?, h1, h2]
      · have h2 : (e.1 == k) = false := beq_eq_false_iff_ne.mpr hk
        simp [List.filter, List.find?, h1, h2, ih]

theorem lookup_writeFs_self (σ : FileSys) (p c : String) :
    (writeFs σ p c).lookup (realpathFs σ p) = some (.file c) := by
  simp only [writeFs, FileSys.lookup]
  rw [find?_append_cases, find?_filter_self]
  simp [List.find?]

theorem lookup_writeFs_other (σ : FileSys) (p c k : String)
    (hk : k ≠ realpathFs σ p) :
    (writeFs σ p c).lookup k = σ.lookup k := by
  simp only [writeFs, FileSys.lookup]
  rw [find?_append_cases, find?_filter_ne σ.entries (realpathFs σ p) k hk]
  cases hf : σ.entries.find? (fun e => e.1 == k) with
  | some a => rfl
  | none =>
    have hget : (realpathFs σ p == k) = false :=
      beq_eq_false_iff_ne.mpr (fun hh => hk hh.symm)
    simp [List.find?, hget]
theorem read_after_write (σ : FileSys) (rp path cwd content : String)
    (hrp : resolveToolPath cwd path = rp)
    (h1 : (ensureWorkspaceAccess rp cwd).allowed = true)
    (h2 : isSensitiveFile rp = false)
    (h3 : ∀ t, σ.lookup rp ≠ some (.symlink t))
    (h4 : ∀ t, σ.lookup cwd ≠ some (.symlink t))
    (h6 : content ≠ "")
    (h7 : content.toList.length ≤ 100000) :
    executeRead (writeFs σ rp content) path none none cwd
      = ⟨true, some content, none⟩ := by
  have hin : isPathInsideWorkspace rp cwd = true := ensure_allowed_inside _ _ h1
  have hreal : realpathFs σ rp = rp := realpathFs_of_not_symlink σ _ h3
  have hl_self : (writeFs σ rp content).lookup rp = some (.file content) := by
    have := lookup_writeFs_self σ rp content
    rwa [hreal] at this
  have h3' : ∀ t, (writeFs σ rp content).lookup rp ≠ some (.symlink t) := by
    intro t ht
    rw [hl_self] at ht
    simp at ht
  have h4' : ∀ t, (writeFs σ rp content).lookup cwd ≠ some (.symlink t) := by
    intro t ht
    by_cases hc : cwd = rp
    · rw [hc, hl_self] at ht
      simp at ht
    · rw [lookup_writeFs_other σ rp content cwd (by rw [hreal]; exact hc)] at ht
      exact h4 t ht
  have hreal2 : realpathFs (writeFs σ rp content) rp = rp :=
    realpathFs_of_not_symlink _ _ h3'
  have hread : readFs (writeFs σ rp content) rp = some content := by
    simp only [readFs, hreal2, hl_self]
  have hesc2 : (isSymlinkEscape (writeFs σ rp content) rp cwd).1 = false :=
    symlink_escape_clean _ _ cwd hin h3' h4'
  have hlen : ¬ (content.toList.length > 100000) := by omega
  have hne : (content == "") = false := beq_eq_false_iff_ne.mpr h6
  simp only [executeRead, hrp, h1, h2, hesc2, hread, Bool.not_true, Bool.false_eq_true,
    if_false, hne, if_neg hlen]

/-- C8 counterexample: the empty string matches no dangerous-code
pattern and `/workspace/123/a.txt` is in-workspace and non-sensitive,
yet writing it and reading the path back returns the placeholder
`(пустой файл)` rather than the written (empty) content. -/
theorem write_read_empty_placeholder :
    containsDangerousCode "" = none ∧
    (executeWrite ⟨[]⟩ "/workspace/123/a.txt" "" "/workspace/123").2.success = true ∧
    executeRead (executeWrite ⟨[]⟩ "/workspace/123/a.txt" "" "/workspace/123").1
      "/workspace/123/a.txt" none none "/workspace/123"
      = ⟨true, some "(пустой файл)", none⟩ := by
  refine ⟨by decide, by decide, by decide⟩

/-- C8 (amended): for every filesystem state, workspace cwd and file
path whose resolved form is access-allowed, non-sensitive, and not
currently a symbolic link (nor is the cwd), and every nonempty content
of at most 100000 characters matching no dangerous-code pattern,
`write_file` succeeds and a subsequent `read_file` of the same path
with no offset or limit returns exactly the written content. -/
theorem write_read_roundtrip (σ : FileSys) (path content cwd : String)
    (h1 : (ensureWorkspaceAccess (resolveToolPath cwd path) cwd).allowed = true)
    (h2 : isSensitiveFile (resolveToolPath cwd path) = false)
    (h3 : ∀ t, σ.lookup (resolveToolPath cwd path) ≠ some (.symlink t))
    (h4 : ∀ t, σ.lookup cwd ≠ some (.symlink t))
    (h5 : containsDangerousCode content = none)
    (h6 : content ≠ "")
    (h7 : content.toList.length ≤ 100000) :
    (executeWrite σ path content cwd).2.success = true ∧
    executeRead (executeWrite σ path content cwd).1 path none none cwd
      = ⟨true, some content, none⟩ := by
  have hin : isPathInsideWorkspace (resolveToolPath cwd path) cwd = true :=
    ensure_allowed_inside _ _ h1
  have hesc : (isSymlinkEscape σ (resolveToolPath cwd path) cwd).1 = false :=
    symlink_escape_clean σ _ cwd hin h3 h4
  have hw : executeWrite σ path content cwd
      = (writeFs σ (resolveToolPath cwd path) content,
         ⟨true, some ("Записано " ++ toString content.toList.length ++ " байт в " ++ path),
          none⟩) := by
    simp only [executeWrite, h1, h2, hesc, h5, Bool.not_true, Bool.false_eq_true, if_false]
  rw [hw]
  exact ⟨rfl, read_after_write σ (resolveToolPath cwd path) path cwd content rfl
    h1 h2 h3 h4 h6 h7⟩

/-- C8 witness: the round-trip theorem applied to a concrete empty
filesystem, path and content. -/
theorem write_read_roundtrip_witness :
    (executeWrite ⟨[]⟩ "/workspace/123/b.txt" "hello" "/workspace/123").2.success = true ∧
    executeRead (executeWrite ⟨[]⟩ "/workspace/123/b.txt" "hello" "/workspace/123").1
      "/workspace/123/b.txt" none none "/workspace/123"
      = ⟨true, some "hello", none⟩ :=
  write_read_roundtrip ⟨[]⟩ "/workspace/123/b.txt" "hello" "/workspace/123"
    (by decide) (by decide)
    (fun t ht => by simp [FileSys.lookup, List.find?] at ht)
    (fun t ht => by simp [FileSys.lookup, List.find?] at ht)
    (by decide) (by decide) (by decide)
/-- C10: `delete_file` enforces only workspace containment.  For every
filesystem state and every access-allowed, existing path, the delete
succeeds and removes the entry, with no sensitive-file or
symlink-escape hypothesis required; concretely, an in-workspace `.env`
file (which `isSensitiveFile` flags) and an in-workspace symlink to
`/etc/passwd` (which `isSymlinkEscape` flags as an escape) are both
deleted successfully. -/
theorem delete_only_containment :
    (∀ (σ : FileSys) (path cwd : String),
      (ensureWorkspaceAccess (resolveToolPath cwd path) cwd).allowed = true →
      existsFs σ (resolveToolPath cwd path) = true →
      executeDelete σ path cwd
        = (⟨σ.entries.filter (fun e => !(e.1 == resolveToolPath cwd path))⟩,
           ⟨true, some ("Удалено: " ++ path), none⟩)) ∧
    isSensitiveFile "/workspace/123/.env" = true ∧
    (executeDelete ⟨[("/workspace/123/.env", FsEntry.file "SECRET=1")]⟩
        ".env" "/workspace/123").2
      = ⟨true, some "Удалено: .env", none⟩ ∧
    (isSymlinkEscape
        ⟨[("/workspace/123/link", FsEntry.symlink "/etc/passwd"),
          ("/etc/passwd", FsEntry.file "root:x:0:0")]⟩
        "/workspace/123/link" "/workspace/123").1 = true ∧
    executeDelete
        ⟨[("/workspace/123/link", FsEntry.symlink "/etc/passwd"),
          ("/etc/passwd", FsEntry.file "root:x:0:0")]⟩
        "link" "/workspace/123"
      = (⟨[("/etc/passwd", FsEntry.file "root:x:0:0")]⟩,
         ⟨true, some "Удалено: link", none⟩) := by
  refine ⟨?_, by decide, by decide, by decide, by decide⟩
  intro σ path cwd h1 h2
  simp only [executeDelete, unlinkFs, h1, h2, Bool.not_true, Bool.false_eq_true, if_false]

/-- C10 witness: the universal part of the delete theorem applied to
the concrete sensitive-named `.env` file. -/
theorem delete_only_containment_witness :
    executeDelete ⟨[("/workspace/123/.env", FsEntry.file "SECRET=1")]⟩
        ".env" "/workspace/123"
      = (⟨[]⟩, ⟨true, some "Удалено: .env", none⟩) := by
  have h := delete_only_containment.1
    ⟨[("/workspace/123/.env", FsEntry.file "SECRET=1")]⟩ ".env" "/workspace/123"
    (by decide) (by decide)
  exact h.trans (by decide)
end LocalTopSH
